import Mathlib

/-!
Verification development for the JobflowAI resume/JD matching subsystem.

Shallow embedding of:
  * `backend/utils/text_normalize.py` (the comparison normalizer),
  * `backend/constants.py` (static catalogs),
  * `backend/utils/similarity.py` (the similarity engine),
  * `backend/routes/parse.py` (the heuristic resume parser),
  * the mode guard of `backend/routes/compare.py`.

Modelling conventions:
  * strings are Lean `String`s / `List Char`; Python character classes
    (`\w`, `\s`, `str.lower`, …) are modelled on their ASCII fragment,
    which covers every catalog entry and every concrete input used here
    (the only non-ASCII characters that occur are the dashes – and —,
    which are explicitly modelled);
  * Python `set[str]` is modelled as `Finset String` in the similarity
    engine and as deduplicated `List String` in the parser;
  * Python floats are modelled as `ℚ` (the claims under study only
    concern the exactly representable endpoints 0.0 and 100.0);
  * the external `rapidfuzz` scorers are not part of this repository and
    are taken as parameters of the functions that consult them; every
    theorem below quantifies over them or never forces them.
-/

set_option maxRecDepth 10000

namespace JF

/-! ### Character-level helpers (ASCII fragments of Python semantics) -/

/-- Uppercase/lowercase ASCII letter pairs, used to model `str.lower`. -/
def lowerPairs : List (Char × Char) :=
  [('A', 'a'), ('B', 'b'), ('C', 'c'), ('D', 'd'), ('E', 'e'), ('F', 'f'),
   ('G', 'g'), ('H', 'h'), ('I', 'i'), ('J', 'j'), ('K', 'k'), ('L', 'l'),
   ('M', 'm'), ('N', 'n'), ('O', 'o'), ('P', 'p'), ('Q', 'q'), ('R', 'r'),
   ('S', 's'), ('T', 't'), ('U', 'u'), ('V', 'v'), ('W', 'w'), ('X', 'x'),
   ('Y', 'y'), ('Z', 'z')]

/-- ASCII fragment of Python `str.lower` on a single character. -/
def toLowerChar (c : Char) : Char :=
  match lowerPairs.find? (fun p => p.1 = c) with
  | some p => p.2
  | none => c

/-- ASCII fragment of Python `str.upper`/`str.title` capitalization on a character. -/
def toUpperChar (c : Char) : Char :=
  match lowerPairs.find? (fun p => p.2 = c) with
  | some p => p.1
  | none => c

/-- ASCII fragment of the Python regex class `\w` (`[a-zA-Z0-9_]`). -/
def isWordChar (c : Char) : Bool :=
  c.isAlphanum || c = '_'

/-- ASCII fragment of the Python regex class `\s` and of `str.strip`/`str.split`
whitespace: space, tab, newline, carriage return, vertical tab, form feed. -/
def isPySpace (c : Char) : Bool :=
  c = ' ' || c = '\t' || c = '\n' || c = '\r' || c = '\x0b' || c = '\x0c'

/-- The three dash characters of `_DEHYPHEN_RE = (\w)[\-–—](\w)`. -/
def isDashChar (c : Char) : Bool :=
  c = '-' || c = '–' || c = '—'

/-- Characters kept by `_PUNCT_RE = [^\w\s\+\#/&\.-]` (everything else becomes a space). -/
def keepChar (c : Char) : Bool :=
  isWordChar c || isPySpace c || c = '+' || c = '#' || c = '/' || c = '&' || c = '.' || c = '-'

/-! ### List-of-characters string primitives (Python `str` operations) -/

/-- Python `str.lstrip()` on a character list. -/
def pyLStrip (l : List Char) : List Char := l.dropWhile isPySpace

/-- Python `str.rstrip()` on a character list. -/
def pyRStrip (l : List Char) : List Char := (l.reverse.dropWhile isPySpace).reverse

/-- Python `str.strip()` on a character list. -/
def pyStrip (l : List Char) : List Char := pyRStrip (pyLStrip l)

/-- Does `needle` occur as a leading segment of `hay`? -/
def startsL : List Char → List Char → Bool
  | [], _ => true
  | _ :: _, [] => false
  | a :: as, b :: bs => a = b && startsL as bs

/-- Python substring containment `needle in hay` on character lists. -/
def subOf (needle : List Char) : List Char → Bool
  | [] => startsL needle []
  | c :: t => startsL needle (c :: t) || subOf needle t

/-- Python substring containment on `String`s. -/
def strContains (hay needle : String) : Bool := subOf needle.data hay.data

/-- Worker for `replaceAll`, with the remaining length as structural fuel.
With fuel `≥ l.length` this is Python `str.replace` (left-to-right,
non-overlapping); with exhausted fuel it returns the input unchanged. -/
def replAux (old new : List Char) : Nat → List Char → List Char
  | 0, l => l
  | _ + 1, [] => []
  | f + 1, c :: cs =>
    if !old.isEmpty && startsL old (c :: cs) then
      new ++ replAux old new f (List.drop (old.length - 1) cs)
    else c :: replAux old new f cs

/-- Python `str.replace(old, new)` for non-empty `old` (for `old = ""` it is
the identity; the program only ever replaces non-empty literals). -/
def replaceAll (old new l : List Char) : List Char := replAux old new l.length l

/-- Worker for `collapseRuns`: the flag records whether we are inside a run
of characters satisfying `p` (whose first character already emitted `' '`). -/
def collapseRunsGo (p : Char → Bool) : Bool → List Char → List Char
  | _, [] => []
  | inRun, c :: cs =>
    if p c then
      if inRun then collapseRunsGo p true cs else ' ' :: collapseRunsGo p true cs
    else c :: collapseRunsGo p false cs

/-- Regex substitution `re.sub(p+, " ", s)` for a character class `p`:
every maximal run of `p`-characters becomes a single space. Instantiated
with `isPySpace` this is `_SPACE_RE.sub(" ", s)`. -/
def collapseRuns (p : Char → Bool) (l : List Char) : List Char := collapseRunsGo p false l

/-- One character of `_PUNCT_RE.sub(" ", s)`. -/
def punctFix (c : Char) : Char := if keepChar c then c else ' '

/-- The substitution `_DEHYPHEN_RE.sub(r"\1 \2", s)` for
`_DEHYPHEN_RE = (\w)[\-–—](\w)`: left-to-right, non-overlapping, the
scan resumes after the second captured word character. -/
def dehyphenAux : Nat → List Char → List Char
  | 0, l => l
  | _ + 1, [] => []
  | f + 1, a :: rest =>
    match rest with
    | b :: c :: rest2 =>
      if isWordChar a && isDashChar b && isWordChar c then
        a :: ' ' :: c :: dehyphenAux f rest2
      else
        a :: dehyphenAux f rest
    | _ => a :: rest

/-- The de-hyphenation pass, with enough fuel for the whole input. -/
def dehyphen (l : List Char) : List Char := dehyphenAux l.length l

/-- Core of `text_normalize.normalize` on character lists: lowercase,
de-hyphenate, apply the two canonicalization replacements, strip
disallowed punctuation, collapse whitespace runs, trim. -/
def normalizeL (l : List Char) : List Char :=
  pyStrip (collapseRuns isPySpace (List.map punctFix
    (replaceAll "end to end".data "end-to-end end to end".data
      (replaceAll "e commerce".data "ecommerce e commerce".data
        (dehyphen (List.map toLowerChar l))))))

/-- `backend/utils/text_normalize.py::normalize`. -/
def normalize (s : String) : String := ⟨normalizeL s.data⟩

example : normalize "Machine-Learning" = "machine learning" := by decide
example : normalize "a-b-c" = "a b-c" := by decide
example : normalize "a b-c" = "a b c" := by decide
example : normalize "e-commerce" = "ecommerce e commerce" := by decide
example : normalize "ecommerce e commerce" = "ecommerce ecommerce e commerce" := by decide
example : normalize "machine-\nlearning" = "machine- learning" := by decide
example : normalize "  C++  and C#!\n ok " = "c++ and c# ok" := by decide
example : normalize "" = "" := by decide

/-! ### Static catalogs (backend/constants.py) -/

/-- `constants.SKILLS_SET` (a Python set literal, given here in source order). -/
def RAW_SKILLS : List String :=
  ["python", "java", "javascript", "typescript", "c", "c++", "c#",
   "go", "ruby", "php", "sql", "mysql", "postgresql", "mongodb", "redis",
   "html", "css", "react", "vue", "angular", "node", "express",
   "django", "flask", "spring", "fastapi",
   "aws", "gcp", "azure", "docker", "kubernetes", "terraform", "linux",
   "rest", "api", "graphql", "microservices",
   "machine learning", "ml", "nlp", "cv", "pandas", "numpy",
   "scikit-learn", "tensorflow", "pytorch",
   "git", "agile", "scrum", "testing", "pytest", "jest",
   "excel", "tableau", "powerbi", "data", "analysis"]

/-- `constants.STOP_WORDS`. -/
def RAW_STOP : List String :=
  ["the", "and", "or", "an", "a", "to", "of", "for", "on",
   "with", "by", "in", "at", "as", "is", "are", "was", "were",
   "be", "been", "this", "that", "it"]

/-- `constants.PHRASES`. -/
def RAW_PHRASES : List String :=
  ["machine learning", "deep learning", "data science",
   "artificial intelligence", "natural language processing",
   "computer vision", "cloud computing", "project management",
   "software development"]

/-- `constants.SYNONYMS`. -/
def RAW_SYNS : List (String × List String) :=
  [("ml", ["machine learning"]), ("ai", ["artificial intelligence"]),
   ("nlp", ["natural language processing"]), ("cv", ["computer vision"]),
   ("js", ["javascript"]), ("py", ["python"])]

/-! ### Normalized catalogs (similarity.py, module top level) -/

/-- `similarity.STOP_WORDS = {_norm(x) for x in RAW_STOP if x}`. -/
def STOP_WORDS : Finset String :=
  ((RAW_STOP.filter (fun x => x ≠ "")).map (fun x => normalize x)).toFinset

/-- `similarity.SKILLS_SET = {_norm(x) for x in RAW_SKILLS if x}`. -/
def SKILLS_SET : Finset String :=
  ((RAW_SKILLS.filter (fun x => x ≠ "")).map (fun x => normalize x)).toFinset

/-- `similarity.PHRASES = {_norm(x) for x in RAW_PHRASES if x}`. -/
def PHRASES : Finset String :=
  ((RAW_PHRASES.filter (fun x => x ≠ "")).map (fun x => normalize x)).toFinset

/-- `similarity.SYNONYMS` as an association list. The construction loop in the
source merges buckets via `setdefault`; the normalized keys of `RAW_SYNS`
are pairwise distinct, so a direct `filterMap` builds the same dictionary. -/
def SYNONYMS_LIST : List (String × Finset String) :=
  RAW_SYNS.filterMap (fun kv =>
    let nk := normalize kv.1
    if nk = "" then none
    else some (nk,
      (((kv.2.map (fun v => normalize v)).filter (fun nv => nv ≠ "" && nv ≠ nk))).toFinset))

/-- Dictionary lookup `SYNONYMS.get(t, ())`. -/
def SYNONYMS (t : String) : Finset String :=
  match SYNONYMS_LIST.find? (fun kv => kv.1 = t) with
  | some kv => kv.2
  | none => ∅

/-! ### Env-tunable knobs at their defaults (similarity.py) -/

def STRICT : Nat := 92
def TOKEN_STRICT : Nat := 88
def LOOSE : Nat := 82
def PHRASE_STRICT : Nat := 90
def PHRASE_LOOSE : Nat := 84
def W_SKILL : ℚ := 2
def W_PHRASE : ℚ := 2
def W_WORD : ℚ := 1
def USE_EMBED : Bool := false
def BASE_WEIGHT : ℚ := 2/5
def EMBED_WEIGHT : ℚ := 3/5
def MAX_SYNONYM_HOPS : Nat := 1
def MAX_SYNONYM_SIZE : Nat := 2000
def PHRASE_WINDOW : Nat := 16
def PHRASE_STEP : Nat := 4
def DEFAULT_TOP_N : Nat := 40

/-! ### Tokenization and phrase extraction (similarity.py helpers) -/

/-- Worker for `pySplit`: accumulates the current word reversed. -/
def pySplitGo (p : Char → Bool) : List Char → List Char → List (List Char)
  | acc, [] => if acc.isEmpty then [] else [acc.reverse]
  | acc, c :: cs =>
    if p c then
      (if acc.isEmpty then pySplitGo p [] cs else acc.reverse :: pySplitGo p [] cs)
    else pySplitGo p (c :: acc) cs

/-- Python `str.split()` with no argument: split on whitespace runs,
dropping empty pieces. -/
def pySplit (s : String) : List String := (pySplitGo isPySpace [] s.data).map String.mk

/-- `similarity._tokenize_words`: whitespace tokens minus stopwords. -/
def tokenize_words (text : String) : List String :=
  (pySplit text).filter (fun t => t ≠ "" && !(decide (t ∈ STOP_WORDS)))

/-- `similarity._extract_phrases`: exact catalog-phrase substring hits. -/
def extract_phrases (text : String) (phrases : Finset String) : Finset String :=
  if phrases = ∅ ∨ text = "" then ∅
  else phrases.filter (fun p => p ≠ "" ∧ strContains text p = true)

/-! ### Synonym expansion (similarity._expand_synonyms) -/

/-- The hop loop of `_expand_synonyms`: at most `hops` iterations, stopping
early when a hop adds nothing, and stopping (after the hop) once the set
has reached `MAX_SYNONYM_SIZE` elements. -/
def expandLoop : Nat → Finset String → Finset String
  | 0, expanded => expanded
  | h + 1, expanded =>
    let newItems := (expanded.biUnion SYNONYMS) \ expanded
    if newItems = ∅ then expanded
    else
      let ex2 := expanded ∪ newItems
      if MAX_SYNONYM_SIZE ≤ ex2.card then ex2 else expandLoop h ex2

/-- `similarity._expand_synonyms`. -/
def expand_synonyms (tokens : Finset String) : Finset String :=
  if tokens = ∅ then ∅ else expandLoop MAX_SYNONYM_HOPS tokens

/-! ### Sorting helpers (Python `sorted` on strings) -/

/-- Code-point lexicographic `<` on character lists (Python string `<`). -/
def strLtL : List Char → List Char → Bool
  | [], [] => false
  | [], _ :: _ => true
  | _ :: _, [] => false
  | a :: as, b :: bs => if a = b then strLtL as bs else decide (a.toNat < b.toNat)

/-- Code-point lexicographic `≤` on strings. -/
def strLeB (s t : String) : Bool := !(strLtL t.data s.data)

/-- Insert into a `le`-sorted list. -/
def insSorted (le : String → String → Bool) (a : String) : List String → List String
  | [] => [a]
  | b :: bs => if le a b then a :: b :: bs else b :: insSorted le a bs

/-- Insertion sort by a boolean comparator. On lists of pairwise-distinct
strings with a total comparator this computes exactly Python `sorted`. -/
def sortByB (le : String → String → Bool) (l : List String) : List String :=
  l.foldr (insSorted le) []

/-- Python `sorted` on a list of distinct strings. -/
def pySortedStrings (l : List String) : List String := sortByB strLeB l

/-- The `sorted(...)` key `(-len(s), s)` of `_stable_keywords_list`,
as a boolean "comes no later than" comparator. -/
def stableKeyLe (s t : String) : Bool :=
  decide (t.data.length < s.data.length) ||
    (s.data.length == t.data.length && strLeB s t)

/-! ### Word-level fuzzy matching (similarity._match_with_fuzz) -/

/-- `similarity._match_with_fuzz`, parameterized by the external
`rapidfuzz`-backed `_best_fuzzy_match_cached` (which returns
`(best_word, best_score, scorer_name)`).  For each target element the code
accepts it if it is in the source verbatim, or if the best fuzzy scorer
clears its own threshold. -/
def match_with_fuzz (bestFuzzy : String → List String → String × Nat × String)
    (source target : Finset String) : Finset String × Finset String :=
  if target = ∅ then (∅, ∅)
  else if source = ∅ then (∅, target)
  else
    let sourceTuple := source.sort (· ≤ ·)
    let okB : String → Bool := fun t =>
      let r := bestFuzzy t sourceTuple
      (r.2.2 == "qratio" && decide (STRICT ≤ r.2.1)) ||
      (r.2.2 == "token_set" && decide (TOKEN_STRICT ≤ r.2.1)) ||
      (r.2.2 == "partial" && decide (LOOSE ≤ r.2.1))
    (target.filter (fun t => t ∈ source ∨ okB t = true),
     target.filter (fun t => ¬ (t ∈ source ∨ okB t = true)))

/-! ### Windowed fuzzy phrase matching (similarity._fuzzy_phrase_hits_windowed) -/

/-- Python `range(0, stop, step)` for `step ≥ 1`. -/
def pyRange3 (stop step : Nat) : List Nat :=
  (List.range ((stop + step - 1) / step)).map (fun i => i * step)

/-- Join words with single spaces (`" ".join(...)`). -/
def joinWords (ws : List String) : String :=
  ⟨List.intercalate [' '] (ws.map String.data)⟩

/-- `similarity._fuzzy_phrase_hits_windowed`, parameterized by the external
`rapidfuzz` scorers `fuzz.QRatio` and `fuzz.partial_ratio`. An empty phrase
is skipped entirely (it lands in neither result set), exactly as in the
source loop. -/
def fuzzy_phrase_hits_windowed (qRatioFn pRatioFn : String → String → Nat)
    (resume_text_norm : String) (jd_phrases : Finset String) :
    Finset String × Finset String :=
  if jd_phrases = ∅ then (∅, ∅)
  else
    let r_toks := pySplit resume_text_norm
    if r_toks.isEmpty then (∅, jd_phrases)
    else
      let n := r_toks.length
      let hitB : String → Bool := fun phrase =>
        if strContains resume_text_norm phrase then true
        else
          let plen := max 2 (pySplit phrase).length
          let window := max PHRASE_WINDOW (plen + 6)
          let step := max 1 (min PHRASE_STEP window)
          (pyRange3 (max 1 (n + 1 - window)) step).any (fun i =>
            let chunk := joinWords ((r_toks.drop i).take window)
            decide (PHRASE_STRICT ≤ qRatioFn phrase chunk) ||
            decide (PHRASE_LOOSE ≤ pRatioFn phrase chunk))
      (jd_phrases.filter (fun p => p ≠ "" ∧ hitB p = true),
       jd_phrases.filter (fun p => p ≠ "" ∧ hitB p = false))

/-! ### The common pipeline (similarity._compute_sets) -/

/-- Result record of `_compute_sets` (a 6-tuple in the source). -/
structure ComputedSets where
  resume_tokens : Finset String
  jd_tokens : Finset String
  resume_phrases : Finset String
  jd_phrases : Finset String
  norm_resume : String
  norm_jd : String

/-- `similarity._compute_sets`: normalize, tokenize, extract exact phrases,
expand synonyms on both token sets. -/
def compute_sets (resume_text jd_text : String) : ComputedSets :=
  let norm_resume := normalize resume_text
  let norm_jd := normalize jd_text
  let resume_tokens := (tokenize_words norm_resume).toFinset
  let jd_tokens := (tokenize_words norm_jd).toFinset
  let resume_phrases := extract_phrases norm_resume PHRASES
  let jd_phrases := extract_phrases norm_jd PHRASES
  { resume_tokens := expand_synonyms resume_tokens
    jd_tokens := expand_synonyms jd_tokens
    resume_phrases := resume_phrases
    jd_phrases := jd_phrases
    norm_resume := norm_resume
    norm_jd := norm_jd }

/-- `similarity._stable_keywords_list`: longer strings first, then
alphabetical, optionally capped. -/
def stable_keywords_list (items : Finset String) (limit : Option Int) : List String :=
  let ordered := sortByB stableKeyLe (items.sort (· ≤ ·))
  match limit with
  | some k => if 0 ≤ k then ordered.take k.toNat else ordered
  | none => ordered

/-- Python banker's rounding (`round`) to an integer, on rationals. -/
def roundHalfEven (q : ℚ) : ℤ :=
  let f := ⌊q⌋
  let r := q - f
  if r < 1/2 then f
  else if 1/2 < r then f + 1
  else if Even f then f else f + 1

/-- Python `round(x, 2)` on the rational model of the score. -/
def round2 (q : ℚ) : ℚ := (roundHalfEven (q * 100) : ℚ) / 100

/-- `similarity._semantic_percent`, with the embedding backend as a
parameter (`none` models both a disabled backend and a raised exception).
With the default `USE_EMBED = false` this is constantly `none`. -/
def semantic_percent (embedSim : String → String → Option ℚ)
    (norm_resume norm_jd : String) : Option ℚ :=
  if USE_EMBED then
    match embedSim norm_resume norm_jd with
    | some sim => some (max 0 (min 1 sim) * 100)
    | none => none
  else none

/-! ### The public scorer (similarity.compute_similarity) -/

/-- The optional `debug` payload of `compute_similarity`. The two percent
fields are present only in `"overall"` mode (`none` models an absent key). -/
structure SimDebug where
  matched_words : List String
  unmatched_words : List String
  matched_skills : List String
  unmatched_skills : List String
  matched_phrases : List String
  unmatched_phrases : List String
  base_percent : Option ℚ
  semantic_percent : Option ℚ
deriving DecidableEq

/-- The result dictionary of `compute_similarity`. -/
structure SimOut where
  match_percentage : ℚ
  matched_keywords : List String
  unmatched_keywords : List String
  debug : Option SimDebug
deriving DecidableEq

/-- The `comparison_type` dispatch of `compute_similarity`, producing
`(pct, matched, unmatched, base_percent?, semantic_percent?)`. The two
booleans are `comparison_type == "skill"` and `comparison_type == "overall"`;
when both are false this is the final (`"word"`) branch of the source
`if/elif/else`. -/
def similarity_branch (skillMode overallMode : Bool)
    (matched_words matched_skills matched_phrases
      jd_tokens jd_skills jd_phrases : Finset String)
    (sem_percent : Option ℚ) :
    ℚ × Finset String × Finset String × Option ℚ × Option ℚ :=
  if skillMode then
    let matched := matched_skills ∪ matched_phrases
    let desired := jd_skills ∪ jd_phrases
    let unmatched := desired \ matched
    let pct :=
      if desired.card ≠ 0 then round2 ((matched.card : ℚ) / desired.card * 100) else 0
    (pct, matched, unmatched, none, none)
  else if overallMode then
    let matched := matched_words ∪ matched_skills ∪ matched_phrases
    let score := W_WORD * ((matched ∩ jd_tokens).card : ℚ)
      + W_SKILL * ((matched ∩ jd_skills).card : ℚ)
      + W_PHRASE * ((matched ∩ jd_phrases).card : ℚ)
    let total := W_WORD * (jd_tokens.card : ℚ)
      + W_SKILL * (jd_skills.card : ℚ)
      + W_PHRASE * (jd_phrases.card : ℚ)
    let base_percent := if total ≠ 0 then round2 (score / total * 100) else 0
    let pct :=
      match sem_percent with
      | some sp =>
        round2 (max 0 (min 100 (BASE_WEIGHT * base_percent + EMBED_WEIGHT * sp)))
      | none => base_percent
    let unmatched := (jd_tokens ∪ jd_phrases ∪ jd_skills) \ matched
    (pct, matched, unmatched, some base_percent, sem_percent)
  else
    let matched := matched_words ∪ matched_phrases
    let desired := jd_tokens ∪ jd_phrases
    let unmatched := desired \ matched
    let pct :=
      if desired.card ≠ 0 then round2 ((matched.card : ℚ) / desired.card * 100) else 0
    (pct, matched, unmatched, none, none)

/-- Worker for `compute_similarity` with the mode comparisons already
evaluated. The three `comparison_type` branches of the source compute
`resume_skills`/`jd_skills` and the skill-level fuzzy match identically,
so those are hoisted above the dispatch; in `"overall"` mode the semantic
percent is consulted exactly as in the source (and ignored otherwise). -/
def compute_similarity_core (skillMode overallMode : Bool)
    (bestFuzzy : String → List String → String × Nat × String)
    (qRatioFn pRatioFn : String → String → Nat)
    (embedSim : String → String → Option ℚ)
    (resume_text jd_text : String)
    (top_n_keywords : Option Int)
    (return_debug : Bool) : SimOut :=
  let cs := compute_sets resume_text jd_text
  -- Early guard: avoid division by zero & useless work
  if cs.jd_tokens = ∅ ∧ cs.jd_phrases = ∅ then
    { match_percentage := 0
      matched_keywords := []
      unmatched_keywords := []
      debug := none }
  else
    let mwu := match_with_fuzz bestFuzzy cs.resume_tokens cs.jd_tokens
    let exact_phrase_matches := cs.jd_phrases ∩ cs.resume_phrases
    let jd_phrases_missing := cs.jd_phrases \ exact_phrase_matches
    let fz := fuzzy_phrase_hits_windowed qRatioFn pRatioFn cs.norm_resume jd_phrases_missing
    let matched_phrases := exact_phrase_matches ∪ fz.1
    let unmatched_phrases := fz.2
    let jd_skills := cs.jd_tokens ∩ SKILLS_SET
    let msu := match_with_fuzz bestFuzzy (cs.resume_tokens ∩ SKILLS_SET) jd_skills
    let branch := similarity_branch skillMode overallMode
      mwu.1 msu.1 matched_phrases cs.jd_tokens jd_skills cs.jd_phrases
      (semantic_percent embedSim cs.norm_resume cs.norm_jd)
    let match_percentage := max 0 (min 100 branch.1)
    let cap : Int :=
      match top_n_keywords with
      | none => (DEFAULT_TOP_N : Int)
      | some k => k
    { match_percentage := match_percentage
      matched_keywords := stable_keywords_list branch.2.1 (some cap)
      unmatched_keywords := stable_keywords_list branch.2.2.1 (some cap)
      debug :=
        if return_debug then
          some { matched_words := stable_keywords_list mwu.1 (some cap)
                 unmatched_words := stable_keywords_list mwu.2 (some cap)
                 matched_skills := stable_keywords_list msu.1 (some cap)
                 unmatched_skills := stable_keywords_list msu.2 (some cap)
                 matched_phrases := stable_keywords_list matched_phrases (some cap)
                 unmatched_phrases := stable_keywords_list unmatched_phrases (some cap)
                 base_percent := branch.2.2.2.1
                 semantic_percent := branch.2.2.2.2 }
        else none }

/-- `similarity.compute_similarity`, parameterized by the external
`rapidfuzz` scorers and the optional embedding backend. Unknown
`comparison_type` values fall into the final (`"word"`) branch, exactly
as the source `if comparison_type == "skill" / elif "overall" / else`
chain does. -/
def compute_similarity
    (bestFuzzy : String → List String → String × Nat × String)
    (qRatioFn pRatioFn : String → String → Nat)
    (embedSim : String → String → Option ℚ)
    (resume_text jd_text : String)
    (comparison_type : String)
    (top_n_keywords : Option Int)
    (return_debug : Bool) : SimOut :=
  compute_similarity_core (comparison_type == "skill") (comparison_type == "overall")
    bestFuzzy qRatioFn pRatioFn embedSim resume_text jd_text
    top_n_keywords return_debug

/-- The `comparison_type` whitelist guard of
`backend/routes/compare.py::compare_resumes` (lines 241-242): the route
rejects unknown modes with an HTTP 400 before the engine runs. -/
def compare_resumes_mode_guard (comparison_type : String) : Option String :=
  if comparison_type ∉ (["word", "skill", "overall"] : List String) then
    some ("Invalid comparison type: " ++ comparison_type)
  else none

/-! ### Concrete instantiations of the external collaborators, used by the
closed theorems below. Any other instantiation works just as well for the
universally quantified theorems. -/

/-- A degenerate stand-in for `_best_fuzzy_match_cached`: no fuzzy hit ever. -/
def constBestFuzzy : String → List String → String × Nat × String := fun _ _ => ("", 0, "")

/-- A degenerate stand-in for a `rapidfuzz` scorer: score 0 everywhere. -/
def constRatioFn : String → String → Nat := fun _ _ => 0

/-- The absent embedding backend (`USE_EMBED` is off by default anyway). -/
def noEmbed : String → String → Option ℚ := fun _ _ => none

/-! ### Claim C1: the partition invariant of the word-level fuzzy matcher -/

/-- C1 (confirmed): for every behavior of the external fuzzy scorer and all
finite string sets `source`, `target`, the matcher `_match_with_fuzz`
returns `(matched, unmatched)` with `matched ∪ unmatched = target` and
`matched ∩ unmatched = ∅`: the two result sets partition the target set
with no overlap. -/
theorem match_with_fuzz_partition
    (bestFuzzy : String → List String → String × Nat × String)
    (source target : Finset String) :
    (match_with_fuzz bestFuzzy source target).1 ∪ (match_with_fuzz bestFuzzy source target).2 = target ∧
    (match_with_fuzz bestFuzzy source target).1 ∩ (match_with_fuzz bestFuzzy source target).2 = ∅ := by
  simp only [match_with_fuzz]
  split_ifs with ht hs
  · subst ht; simp
  · simp
  · refine ⟨Finset.filter_union_filter_neg_eq _ target, ?_⟩
    exact Finset.disjoint_iff_inter_eq_empty.mp
      (Finset.disjoint_filter_filter_neg target target _)

/-! ### Claim C5: the synonym expansion bound -/

/-- Union of every synonym bucket in the dictionary. -/
def allSynValues : Finset String :=
  SYNONYMS_LIST.foldr (fun kv acc => kv.2 ∪ acc) ∅

theorem mem_fold_union_of_mem {kv : String × Finset String}
    (l : List (String × Finset String)) (h : kv ∈ l) :
    kv.2 ⊆ l.foldr (fun kv acc => kv.2 ∪ acc) ∅ := by
  induction l with
  | nil => cases h
  | cons hd tl ih =>
    rcases List.mem_cons.mp h with rfl | h'
    · exact Finset.subset_union_left
    · exact (ih h').trans Finset.subset_union_right

theorem SYNONYMS_subset_allSynValues (t : String) : SYNONYMS t ⊆ allSynValues := by
  unfold SYNONYMS allSynValues
  cases hf : SYNONYMS_LIST.find? (fun kv => kv.1 = t) with
  | none => simp
  | some kv => exact mem_fold_union_of_mem _ (List.mem_of_find?_eq_some hf)

theorem expandLoop_subset_union (h : Nat) (e : Finset String) :
    expandLoop h e ⊆ e ∪ allSynValues := by
  induction h generalizing e with
  | zero => exact Finset.subset_union_left
  | succ h ih =>
    simp only [expandLoop]
    split_ifs with h1 h2
    · exact Finset.subset_union_left
    · refine Finset.union_subset Finset.subset_union_left ?_
      refine (Finset.sdiff_subset).trans ?_
      exact (Finset.biUnion_subset.mpr fun x _ => SYNONYMS_subset_allSynValues x).trans
        Finset.subset_union_right
    · refine (ih _).trans (Finset.union_subset (Finset.union_subset Finset.subset_union_left ?_)
        Finset.subset_union_right)
      refine (Finset.sdiff_subset).trans ?_
      exact (Finset.biUnion_subset.mpr fun x _ => SYNONYMS_subset_allSynValues x).trans
        Finset.subset_union_right

theorem subset_expandLoop (h : Nat) (e : Finset String) : e ⊆ expandLoop h e := by
  induction h generalizing e with
  | zero => exact Finset.Subset.refl e
  | succ h ih =>
    simp only [expandLoop]
    split_ifs with h1 h2
    · exact Finset.Subset.refl e
    · exact Finset.subset_union_left
    · exact Finset.subset_union_left.trans (ih _)

/-- The input is always contained in its expansion. -/
theorem subset_expand_synonyms (tokens : Finset String) :
    tokens ⊆ expand_synonyms tokens := by
  unfold expand_synonyms
  split_ifs with h
  · subst h; exact Finset.Subset.refl _
  · exact subset_expandLoop _ _

/-- C5 counterexample input: 2001 pairwise-distinct tokens (`""`, `"a"`,
`"aa"`, …). -/
def bigTokenSet : Finset String :=
  (Finset.range 2001).image (fun n => String.mk (List.replicate n 'a'))

theorem bigTokenSet_card : bigTokenSet.card = 2001 := by
  unfold bigTokenSet
  rw [Finset.card_image_of_injective _ ?_, Finset.card_range]
  intro m n hmn
  have := congrArg (fun s : String => s.data.length) hmn
  simpa using this

/-- C5 counterexample: the expanded set can exceed `MAX_SYNONYM_SIZE = 2000`,
because the cap never shrinks the input: on a 2001-token input the result
has more than 2000 elements. -/
theorem expand_synonyms_exceeds_cap :
    MAX_SYNONYM_SIZE < (expand_synonyms bigTokenSet).card := by
  have h1 : bigTokenSet.card ≤ (expand_synonyms bigTokenSet).card :=
    Finset.card_le_card (subset_expand_synonyms bigTokenSet)
  rw [bigTokenSet_card] at h1
  calc MAX_SYNONYM_SIZE = 2000 := rfl
    _ < 2001 := by omega
    _ ≤ _ := h1

/-- C5 (corrected): what the code actually guarantees is that the expansion
never adds anything beyond the synonym buckets: the result is contained in
`tokens ∪ allSynValues`, so its size is at most `|tokens|` plus the total
number of distinct synonym values. `MAX_SYNONYM_SIZE` only stops further
hops; it does not cap the result below the input size. -/
theorem expand_synonyms_card_le (tokens : Finset String) :
    (expand_synonyms tokens).card ≤ tokens.card + allSynValues.card := by
  unfold expand_synonyms
  split_ifs with h
  · simp
  · exact (Finset.card_le_card (expandLoop_subset_union _ _)).trans
      (Finset.card_union_le _ _)

/-! ### Claim C3: the empty-JD guard -/

/-- C3 (confirmed): whenever the job-description side yields no desired
tokens and no phrases (in particular for `jd_text = ""`), the scorer
returns exactly `{match_percentage: 0.0, matched_keywords: [],
unmatched_keywords: []}` with no debug payload, for every mode, every
`top_n_keywords`, every `return_debug`, and every scorer/embedding
behavior — instead of dividing by zero. -/
theorem compute_similarity_empty_jd_guard
    (bestFuzzy : String → List String → String × Nat × String)
    (qRatioFn pRatioFn : String → String → Nat)
    (embedSim : String → String → Option ℚ)
    (resume_text jd_text comparison_type : String)
    (top_n_keywords : Option Int) (return_debug : Bool)
    (ht : (compute_sets resume_text jd_text).jd_tokens = ∅)
    (hp : (compute_sets resume_text jd_text).jd_phrases = ∅) :
    compute_similarity bestFuzzy qRatioFn pRatioFn embedSim
      resume_text jd_text comparison_type top_n_keywords return_debug =
    { match_percentage := 0
      matched_keywords := []
      unmatched_keywords := []
      debug := none } := by
  unfold compute_similarity compute_similarity_core
  rw [if_pos ⟨ht, hp⟩]

/-- C3 witness: the guard fires for `resume = "python developer"`, `jd = ""`,
mode `"overall"`, `return_debug = true`. -/
theorem compute_similarity_empty_jd_guard_witness :
    (compute_sets "python developer" "").jd_tokens = ∅ ∧
    (compute_sets "python developer" "").jd_phrases = ∅ ∧
    compute_similarity constBestFuzzy constRatioFn constRatioFn noEmbed
      "python developer" "" "overall" none true =
    { match_percentage := 0
      matched_keywords := []
      unmatched_keywords := []
      debug := none } :=
  ⟨by decide, by decide,
    compute_similarity_empty_jd_guard constBestFuzzy constRatioFn constRatioFn noEmbed
      "python developer" "" "overall" none true (by decide) (by decide)⟩

/-! ### Claim C4: unknown comparison modes -/

/-- C4 counterexample: `compute_similarity` does not refuse an unknown
`comparison_type`. On mode `"bogus"` it returns exactly the `"word"`-mode
result — a normal score payload with no error signal. -/
theorem compute_similarity_unknown_mode_counterexample :
    compute_similarity constBestFuzzy constRatioFn constRatioFn noEmbed
      "python" "python" "bogus" none false =
    compute_similarity constBestFuzzy constRatioFn constRatioFn noEmbed
      "python" "python" "word" none false ∧
    (compute_similarity constBestFuzzy constRatioFn constRatioFn noEmbed
      "python" "python" "bogus" none false).debug = none := by
  constructor
  · rfl
  · decide

/-- C4 (corrected): the refusal lives in the HTTP route, not in the engine.
For every `comparison_type` outside `{word, skill, overall}`, the route
guard of `compare_resumes` rejects the request with an
`"Invalid comparison type"` 400-style error before the engine runs, while
`compute_similarity` itself silently computes the `"word"`-mode result. -/
theorem unknown_mode_guard_and_word_fallback
    (comparison_type : String)
    (h : comparison_type ∉ (["word", "skill", "overall"] : List String)) :
    compare_resumes_mode_guard comparison_type =
      some ("Invalid comparison type: " ++ comparison_type) ∧
    ∀ (bestFuzzy : String → List String → String × Nat × String)
      (qRatioFn pRatioFn : String → String → Nat)
      (embedSim : String → String → Option ℚ)
      (resume_text jd_text : String) (top_n_keywords : Option Int) (return_debug : Bool),
      compute_similarity bestFuzzy qRatioFn pRatioFn embedSim
        resume_text jd_text comparison_type top_n_keywords return_debug =
      compute_similarity bestFuzzy qRatioFn pRatioFn embedSim
        resume_text jd_text "word" top_n_keywords return_debug := by
  have h1 : comparison_type ≠ "skill" := by
    intro e; exact h (by rw [e]; simp)
  have h2 : comparison_type ≠ "overall" := by
    intro e; exact h (by rw [e]; simp)
  refine ⟨by unfold compare_resumes_mode_guard; rw [if_pos h], ?_⟩
  intro bf qr pr em r j top dbg
  unfold compute_similarity
  rw [show (comparison_type == "skill") = false from beq_eq_false_iff_ne.mpr h1,
    show (comparison_type == "overall") = false from beq_eq_false_iff_ne.mpr h2]
  rfl

/-- C4 witness: the corrected statement at `comparison_type = "bogus"`. -/
theorem unknown_mode_guard_and_word_fallback_witness :
    ("bogus" ∉ (["word", "skill", "overall"] : List String)) ∧
    compare_resumes_mode_guard "bogus" = some ("Invalid comparison type: bogus") ∧
    compute_similarity constBestFuzzy constRatioFn constRatioFn noEmbed
      "python" "aws" "bogus" none false =
    compute_similarity constBestFuzzy constRatioFn constRatioFn noEmbed
      "python" "aws" "word" none false :=
  ⟨by decide,
    (unknown_mode_guard_and_word_fallback "bogus" (by decide)).1,
    (unknown_mode_guard_and_word_fallback "bogus" (by decide)).2
      constBestFuzzy constRatioFn constRatioFn noEmbed "python" "aws" none false⟩

/-! ### Claim C6: verbatim-superset inputs in word mode -/

/-- With the default `MAX_SYNONYM_HOPS = 1`, the expansion is exactly one
hop: the input united with all its direct synonyms. -/
theorem expand_synonyms_eq (A : Finset String) :
    expand_synonyms A = A ∪ A.biUnion SYNONYMS := by
  unfold expand_synonyms
  split_ifs with h
  · subst h; simp
  · show expandLoop 1 A = _
    simp only [expandLoop]
    split_ifs with h1 h2
    · exact (Finset.union_eq_left.mpr (Finset.sdiff_eq_empty_iff_subset.mp h1)).symm
    · exact Finset.union_sdiff_self_eq_union
    · exact Finset.union_sdiff_self_eq_union

/-- Synonym expansion is monotone (at the default hop count). -/
theorem expand_synonyms_mono {A B : Finset String} (h : A ⊆ B) :
    expand_synonyms A ⊆ expand_synonyms B := by
  rw [expand_synonyms_eq, expand_synonyms_eq]
  exact Finset.union_subset_union h (Finset.biUnion_subset_biUnion_of_subset_left _ h)

/-- When every target element is already in the source, the fuzzy matcher
matches everything verbatim: the scorer is never decisive. -/
theorem match_with_fuzz_of_subset
    (bestFuzzy : String → List String → String × Nat × String)
    {source target : Finset String} (h : target ⊆ source) :
    match_with_fuzz bestFuzzy source target = (target, ∅) := by
  simp only [match_with_fuzz]
  split_ifs with ht hs
  · rw [ht]
  · have hte : target = ∅ := Finset.subset_empty.mp (by rw [hs] at h; exact h)
    exact absurd hte ht
  · refine Prod.ext ?_ ?_
    · exact Finset.filter_true_of_mem fun t ht' => Or.inl (h ht')
    · exact Finset.filter_false_of_mem fun t ht' hn => hn (Or.inl (h ht'))

/-- Membership in `_extract_phrases`: a catalog phrase that is non-empty and
occurs as a substring of the text. -/
theorem mem_extract_phrases {text : String} {phs : Finset String} {p : String} :
    p ∈ extract_phrases text phs ↔ p ∈ phs ∧ p ≠ "" ∧ strContains text p = true := by
  unfold extract_phrases
  by_cases h : phs = ∅ ∨ text = ""
  · rw [if_pos h]
    simp only [Finset.not_mem_empty, false_iff]
    rintro ⟨hp, hne, hc⟩
    rcases h with h | h
    · rw [h] at hp
      exact Finset.not_mem_empty p hp
    · rw [h] at hc
      obtain ⟨c, cs, hd⟩ : ∃ c cs, p.data = c :: cs := by
        cases hpd : p.data with
        | nil =>
          refine absurd ?_ hne
          cases p
          simp_all
        | cons c cs => exact ⟨c, cs, rfl⟩
      unfold strContains at hc
      rw [hd] at hc
      simp [subOf, startsL] at hc
  · rw [if_neg h, Finset.mem_filter]

/-- Rounding the exact score 100 gives back 100. -/
theorem round2_hundred : round2 100 = 100 := by
  unfold round2 roundHalfEven
  norm_num

/-- Windowed fuzzy phrase matching on an empty phrase set yields nothing. -/
theorem fuzzy_phrase_hits_windowed_empty (qRatioFn pRatioFn : String → String → Nat)
    (resume_text_norm : String) :
    fuzzy_phrase_hits_windowed qRatioFn pRatioFn resume_text_norm ∅ = (∅, ∅) := by
  unfold fuzzy_phrase_hits_windowed
  rw [if_pos rfl]

/-- Projection of `_compute_sets`: the JD token set. -/
theorem compute_sets_jd_tokens (r j : String) :
    (compute_sets r j).jd_tokens = expand_synonyms (tokenize_words (normalize j)).toFinset := by
  simp only [compute_sets]

/-- Projection of `_compute_sets`: the resume token set. -/
theorem compute_sets_resume_tokens (r j : String) :
    (compute_sets r j).resume_tokens =
      expand_synonyms (tokenize_words (normalize r)).toFinset := by
  simp only [compute_sets]

/-- Projection of `_compute_sets`: the JD phrase set. -/
theorem compute_sets_jd_phrases (r j : String) :
    (compute_sets r j).jd_phrases = extract_phrases (normalize j) PHRASES := rfl

/-- Projection of `_compute_sets`: the resume phrase set. -/
theorem compute_sets_resume_phrases (r j : String) :
    (compute_sets r j).resume_phrases = extract_phrases (normalize r) PHRASES := rfl

/-- Past the empty-JD guard, the reported percentage is the clamped
branch percentage on the computed sets. -/
theorem compute_similarity_core_match_percentage
    (skillMode overallMode : Bool)
    (bestFuzzy : String → List String → String × Nat × String)
    (qRatioFn pRatioFn : String → String → Nat)
    (embedSim : String → String → Option ℚ)
    (r j : String) (top : Option Int) (dbg : Bool)
    (hguard : ¬ ((compute_sets r j).jd_tokens = ∅ ∧ (compute_sets r j).jd_phrases = ∅)) :
    (compute_similarity_core skillMode overallMode bestFuzzy qRatioFn pRatioFn embedSim
      r j top dbg).match_percentage =
    max 0 (min 100 (similarity_branch skillMode overallMode
      (match_with_fuzz bestFuzzy (compute_sets r j).resume_tokens (compute_sets r j).jd_tokens).1
      (match_with_fuzz bestFuzzy ((compute_sets r j).resume_tokens ∩ SKILLS_SET)
        ((compute_sets r j).jd_tokens ∩ SKILLS_SET)).1
      (((compute_sets r j).jd_phrases ∩ (compute_sets r j).resume_phrases) ∪
        (fuzzy_phrase_hits_windowed qRatioFn pRatioFn (compute_sets r j).norm_resume
          ((compute_sets r j).jd_phrases \
            ((compute_sets r j).jd_phrases ∩ (compute_sets r j).resume_phrases))).1)
      (compute_sets r j).jd_tokens
      ((compute_sets r j).jd_tokens ∩ SKILLS_SET)
      (compute_sets r j).jd_phrases
      (semantic_percent embedSim (compute_sets r j).norm_resume (compute_sets r j).norm_jd)).1) := by
  simp only [compute_similarity_core]
  rw [if_neg hguard]

/-- The percentage of the final (`"word"`) branch. -/
theorem similarity_branch_word_pct
    (matched_words matched_skills matched_phrases
      jd_tokens jd_skills jd_phrases : Finset String) (sem_percent : Option ℚ) :
    (similarity_branch false false matched_words matched_skills matched_phrases
      jd_tokens jd_skills jd_phrases sem_percent).1 =
    if (jd_tokens ∪ jd_phrases).card ≠ 0 then
      round2 ((((matched_words ∪ matched_phrases).card : ℚ)) / (jd_tokens ∪ jd_phrases).card * 100)
    else 0 := rfl

/-- C6 (corrected): if every stopword-filtered token of the normalized JD
occurs verbatim among the resume's stopword-filtered tokens, AND every JD
catalog phrase occurs as an exact substring of the normalized resume, AND
the JD side yields at least one desired token or phrase, then word-mode
scoring returns exactly 100.0, for every scorer behavior. (The original
claim fails when the JD side is empty — the empty-JD guard returns 0.0
even though the verbatim-superset hypothesis holds vacuously — and its
phrase half depends on the external fuzzy scorer unless the phrases occur
exactly.) -/
theorem word_mode_exact_match_100
    (bestFuzzy : String → List String → String × Nat × String)
    (qRatioFn pRatioFn : String → String → Nat)
    (embedSim : String → String → Option ℚ)
    (resume_text jd_text : String)
    (top_n_keywords : Option Int) (return_debug : Bool)
    (hsub : (tokenize_words (normalize jd_text)).toFinset ⊆
      (tokenize_words (normalize resume_text)).toFinset)
    (hph : ∀ p ∈ extract_phrases (normalize jd_text) PHRASES,
      strContains (normalize resume_text) p = true)
    (hne : (tokenize_words (normalize jd_text)).toFinset ≠ ∅ ∨
      extract_phrases (normalize jd_text) PHRASES ≠ ∅) :
    (compute_similarity bestFuzzy qRatioFn pRatioFn embedSim
      resume_text jd_text "word" top_n_keywords return_debug).match_percentage = 100 := by
  have hTsub : expand_synonyms (tokenize_words (normalize jd_text)).toFinset ⊆
      expand_synonyms (tokenize_words (normalize resume_text)).toFinset :=
    expand_synonyms_mono hsub
  have hPJsub : extract_phrases (normalize jd_text) PHRASES ⊆
      extract_phrases (normalize resume_text) PHRASES := by
    intro p hp
    have h1 := hph p hp
    rw [mem_extract_phrases] at hp ⊢
    exact ⟨hp.1, hp.2.1, h1⟩
  have hguard : ¬ ((compute_sets resume_text jd_text).jd_tokens = ∅ ∧
      (compute_sets resume_text jd_text).jd_phrases = ∅) := by
    rw [compute_sets_jd_tokens, compute_sets_jd_phrases]
    rintro ⟨h1, h2⟩
    rcases hne with hne | hne
    · exact hne (Finset.subset_empty.mp (h1 ▸ subset_expand_synonyms _))
    · exact hne h2
  have hmw := match_with_fuzz_of_subset bestFuzzy hTsub
  have hexact : extract_phrases (normalize jd_text) PHRASES ∩
      extract_phrases (normalize resume_text) PHRASES =
      extract_phrases (normalize jd_text) PHRASES := Finset.inter_eq_left.mpr hPJsub
  have hcard : (expand_synonyms (tokenize_words (normalize jd_text)).toFinset ∪
      extract_phrases (normalize jd_text) PHRASES).card ≠ 0 := by
    rw [Ne, Finset.card_eq_zero]
    rintro h
    rcases hne with hne | hne
    · exact hne (Finset.subset_empty.mp
        ((subset_expand_synonyms _).trans (Finset.subset_union_left.trans (le_of_eq h))))
    · exact hne (Finset.subset_empty.mp (Finset.subset_union_right.trans (le_of_eq h)))
  unfold compute_similarity
  rw [show (("word" : String) == "skill") = false from rfl,
    show (("word" : String) == "overall") = false from rfl,
    compute_similarity_core_match_percentage false false bestFuzzy qRatioFn pRatioFn embedSim
      resume_text jd_text top_n_keywords return_debug hguard,
    compute_sets_jd_tokens, compute_sets_resume_tokens,
    compute_sets_jd_phrases, compute_sets_resume_phrases,
    hexact, Finset.sdiff_self, fuzzy_phrase_hits_windowed_empty, hmw]
  rw [similarity_branch_word_pct, Finset.union_empty, if_pos hcard,
    div_self (Nat.cast_ne_zero.mpr hcard), one_mul, round2_hundred]
  norm_num

/-- C6 counterexample: for `resume = "python"`, `jd = "the"` every
stopword-filtered JD token occurs in the resume tokens (vacuously — "the"
is a stopword), yet word-mode scoring returns 0.0, not 100.0: the empty-JD
guard wins. -/
theorem word_mode_exact_match_counterexample :
    (tokenize_words (normalize "the")).toFinset ⊆
      (tokenize_words (normalize "python")).toFinset ∧
    (compute_similarity constBestFuzzy constRatioFn constRatioFn noEmbed
      "python" "the" "word" none false).match_percentage = 0 ∧
    (compute_similarity constBestFuzzy constRatioFn constRatioFn noEmbed
      "python" "the" "word" none false).match_percentage ≠ 100 := by
  refine ⟨by decide, by decide, by decide⟩

/-- C6 witness: the corrected statement at `resume = "python aws"`,
`jd = "python"` (a verbatim token superset, no JD phrases, non-empty JD). -/
theorem word_mode_exact_match_100_witness :
    ((tokenize_words (normalize "python")).toFinset ⊆
      (tokenize_words (normalize "python aws")).toFinset) ∧
    (compute_similarity constBestFuzzy constRatioFn constRatioFn noEmbed
      "python aws" "python" "word" none false).match_percentage = 100 :=
  ⟨by decide,
    word_mode_exact_match_100 constBestFuzzy constRatioFn constRatioFn noEmbed
      "python aws" "python" none false (by decide)
      (by decide)
      (Or.inl (by decide))⟩

/-! ### Claim C2: idempotency of the comparison normalizer

The normalizer is **not** idempotent (counterexamples below). The
development in this section characterizes the output of `normalize` far
enough to prove the conditional idempotency that does hold: a second pass
is the identity whenever it has nothing to re-dehyphenate and neither
canonicalization replacement fires again. -/

/-- Is the head (if any) a non-whitespace character? -/
def headOkB : List Char → Bool
  | [] => true
  | c :: _ => !isPySpace c

/-- Is the last character (if any) non-whitespace? -/
def lastOkB (l : List Char) : Bool := headOkB l.reverse

/-- Canonically spaced: every whitespace character is `' '` and is followed
by a non-whitespace character. -/
def wsCanon : List Char → Bool
  | [] => true
  | c :: cs => (!isPySpace c || (c = ' ' && headOkB cs)) && wsCanon cs

theorem wsCanon_tail {c : Char} {cs : List Char} (h : wsCanon (c :: cs) = true) :
    wsCanon cs = true := by
  rw [wsCanon, Bool.and_eq_true] at h
  exact h.2

theorem wsCanon_head {c : Char} {cs : List Char} (h : wsCanon (c :: cs) = true) :
    (!isPySpace c || (c = ' ' && headOkB cs)) = true := by
  rw [wsCanon, Bool.and_eq_true] at h
  exact h.1

/-- Pointwise-fixed maps are the identity. -/
theorem map_eq_self_of_mem {f : Char → Char} {l : List Char}
    (h : ∀ c ∈ l, f c = c) : l.map f = l := by
  induction l with
  | nil => rfl
  | cons c cs ih =>
    rw [List.map_cons, h c (List.mem_cons_self c cs),
      ih fun x hx => h x (List.mem_cons_of_mem c hx)]

/-- `toLowerChar` is idempotent. -/
theorem toLowerChar_idem (c : Char) : toLowerChar (toLowerChar c) = toLowerChar c := by
  have hlow : ∀ p ∈ lowerPairs, toLowerChar p.2 = p.2 := by decide
  cases hf : lowerPairs.find? (fun p => p.1 = c) with
  | none =>
    have h : toLowerChar c = c := by unfold toLowerChar; rw [hf]
    simp only [h]
  | some p =>
    have h : toLowerChar c = p.2 := by unfold toLowerChar; rw [hf]
    rw [h, hlow p (List.mem_of_find?_eq_some hf)]

/-! Membership transfer through each normalization stage. -/

theorem mem_dehyphenAux {c' : Char} :
    ∀ (f : Nat) (l : List Char), c' ∈ dehyphenAux f l → c' ∈ l ∨ c' = ' '
  | 0, l, h => Or.inl h
  | _ + 1, [], h => Or.inl h
  | f + 1, a :: rest, h => by
    match rest with
    | b :: c :: rest2 =>
      rw [dehyphenAux] at h
      split_ifs at h with hc
      · rcases List.mem_cons.mp h with rfl | h
        · exact Or.inl (List.mem_cons_self _ _)
        rcases List.mem_cons.mp h with rfl | h
        · exact Or.inr rfl
        rcases List.mem_cons.mp h with rfl | h
        · exact Or.inl (by simp)
        · rcases mem_dehyphenAux f rest2 h with h | h
          · exact Or.inl (by simp [h])
          · exact Or.inr h
      · rcases List.mem_cons.mp h with rfl | h
        · exact Or.inl (List.mem_cons_self _ _)
        · rcases mem_dehyphenAux f (b :: c :: rest2) h with h | h
          · exact Or.inl (List.mem_cons_of_mem _ h)
          · exact Or.inr h
    | [] => exact Or.inl h
    | [b] => exact Or.inl h

theorem mem_dehyphen {c' : Char} {l : List Char} (h : c' ∈ dehyphen l) :
    c' ∈ l ∨ c' = ' ' := mem_dehyphenAux _ l h

theorem mem_replAux {old new : List Char} {c' : Char} :
    ∀ (f : Nat) (l : List Char), c' ∈ replAux old new f l → c' ∈ l ∨ c' ∈ new
  | 0, l, h => Or.inl h
  | _ + 1, [], h => Or.inl h
  | f + 1, c :: cs, h => by
    rw [replAux] at h
    split_ifs at h with hc
    · rcases List.mem_append.mp h with h | h
      · exact Or.inr h
      · rcases mem_replAux f _ h with h | h
        · exact Or.inl (List.mem_cons_of_mem c (List.mem_of_mem_drop h))
        · exact Or.inr h
    · rcases List.mem_cons.mp h with rfl | h
      · exact Or.inl (List.mem_cons_self _ _)
      · rcases mem_replAux f cs h with h | h
        · exact Or.inl (List.mem_cons_of_mem c h)
        · exact Or.inr h

theorem mem_replaceAll {old new l : List Char} {c' : Char} (h : c' ∈ replaceAll old new l) :
    c' ∈ l ∨ c' ∈ new := mem_replAux _ l h

theorem mem_collapseRunsGo {p : Char → Bool} {c' : Char} :
    ∀ (b : Bool) (l : List Char), c' ∈ collapseRunsGo p b l → c' ∈ l ∨ c' = ' '
  | _, [], h => Or.inl h
  | b, c :: cs, h => by
    rw [collapseRunsGo] at h
    split_ifs at h with h1 h2
    · rcases mem_collapseRunsGo true cs h with h | h
      · exact Or.inl (List.mem_cons_of_mem c h)
      · exact Or.inr h
    · rcases List.mem_cons.mp h with rfl | h
      · exact Or.inr rfl
      · rcases mem_collapseRunsGo true cs h with h | h
        · exact Or.inl (List.mem_cons_of_mem c h)
        · exact Or.inr h
    · rcases List.mem_cons.mp h with rfl | h
      · exact Or.inl (List.mem_cons_self _ _)
      · rcases mem_collapseRunsGo false cs h with h | h
        · exact Or.inl (List.mem_cons_of_mem c h)
        · exact Or.inr h

theorem mem_pyLStrip {l : List Char} {c' : Char} (h : c' ∈ pyLStrip l) : c' ∈ l :=
  (List.dropWhile_sublist _).mem h

theorem mem_pyRStrip {l : List Char} {c' : Char} (h : c' ∈ pyRStrip l) : c' ∈ l := by
  unfold pyRStrip at h
  rw [List.mem_reverse] at h
  exact List.mem_reverse.mp ((List.dropWhile_sublist _).mem h)

theorem mem_pyStrip {l : List Char} {c' : Char} (h : c' ∈ pyStrip l) : c' ∈ l :=
  mem_pyLStrip (mem_pyRStrip h)

/-! Identity of each stage under the appropriate condition. -/

theorem dehyphenAux_eq_self :
    ∀ (f : Nat) (l : List Char), (∀ c ∈ l, isDashChar c = false) → dehyphenAux f l = l
  | 0, l, _ => rfl
  | _ + 1, [], _ => rfl
  | f + 1, a :: rest, h => by
    match rest with
    | b :: c :: rest2 =>
      rw [dehyphenAux]
      have hb : isDashChar b = false := h b (by simp)
      rw [if_neg (by simp [hb])]
      rw [dehyphenAux_eq_self f (b :: c :: rest2) fun x hx => h x (List.mem_cons_of_mem a hx)]
    | [] => rfl
    | [b] => rfl

theorem dehyphen_eq_self {l : List Char} (h : ∀ c ∈ l, isDashChar c = false) :
    dehyphen l = l := dehyphenAux_eq_self _ l h

theorem subOf_tail_false {old c cs} (h : subOf old (c :: cs) = false) :
    subOf old cs = false := by
  rw [subOf, Bool.or_eq_false_iff] at h
  exact h.2

theorem subOf_head_false {old c cs} (h : subOf old (c :: cs) = false) :
    startsL old (c :: cs) = false := by
  rw [subOf, Bool.or_eq_false_iff] at h
  exact h.1

theorem replAux_eq_self {old new : List Char} :
    ∀ (f : Nat) (l : List Char), subOf old l = false → replAux old new f l = l
  | 0, l, _ => rfl
  | _ + 1, [], _ => rfl
  | f + 1, c :: cs, h => by
    rw [replAux, if_neg (by simp [subOf_head_false h]),
      replAux_eq_self f cs (subOf_tail_false h)]

theorem replaceAll_eq_self {old new l : List Char} (h : subOf old l = false) :
    replaceAll old new l = l := replAux_eq_self _ l h

/-- Inside a run (state `true`), the collapse worker starts with a
non-whitespace character. -/
theorem headOkB_collapseRunsGo_true :
    ∀ l : List Char, headOkB (collapseRunsGo isPySpace true l) = true
  | [] => rfl
  | c :: cs => by
    rw [collapseRunsGo]
    by_cases h1 : isPySpace c = true
    · rw [if_pos h1, if_pos rfl]
      exact headOkB_collapseRunsGo_true cs
    · rw [if_neg h1]
      simp [headOkB, h1]

/-- The collapse worker always produces a canonically spaced list. -/
theorem wsCanon_collapseRunsGo :
    ∀ (b : Bool) (l : List Char), wsCanon (collapseRunsGo isPySpace b l) = true
  | _, [] => rfl
  | b, c :: cs => by
    rw [collapseRunsGo]
    by_cases h1 : isPySpace c = true
    · rw [if_pos h1]
      cases b with
      | true =>
        rw [if_pos rfl]
        exact wsCanon_collapseRunsGo true cs
      | false =>
        rw [if_neg (by decide)]
        rw [wsCanon, Bool.and_eq_true]
        refine ⟨?_, wsCanon_collapseRunsGo true cs⟩
        simp [headOkB_collapseRunsGo_true cs]
    · rw [if_neg h1, wsCanon, Bool.and_eq_true]
      exact ⟨by simp [h1], wsCanon_collapseRunsGo false cs⟩

/-- Canonically spaced lists are fixed by the collapse pass (in state
`false`, and in state `true` when the head is non-whitespace). -/
theorem collapseRunsGo_eq_self :
    ∀ (l : List Char), wsCanon l = true →
      ∀ b : Bool, (b = true → headOkB l = true) → collapseRunsGo isPySpace b l = l
  | [], _, _, _ => rfl
  | c :: cs, h, b, hb => by
    rw [collapseRunsGo]
    by_cases h1 : isPySpace c = true
    · have hcond := wsCanon_head h
      rw [h1] at hcond
      simp only [Bool.not_true, Bool.false_or, Bool.and_eq_true, decide_eq_true_eq] at hcond
      obtain ⟨hcsp, hhead⟩ := hcond
      have hbf : b = false := by
        cases b with
        | false => rfl
        | true =>
          exfalso
          have h2 := hb rfl
          rw [headOkB, h1] at h2
          simp at h2
      subst hbf
      rw [if_pos h1, if_neg (by decide)]
      rw [collapseRunsGo_eq_self cs (wsCanon_tail h) true fun _ => hhead, hcsp]
    · rw [if_neg h1, collapseRunsGo_eq_self cs (wsCanon_tail h) false (by simp)]

/-- Decomposition of `pyRStrip`: the input is the stripped part followed by
its all-whitespace tail. -/
theorem pyRStrip_append (l : List Char) :
    l = pyRStrip l ++ (l.reverse.takeWhile isPySpace).reverse := by
  unfold pyRStrip
  conv_lhs => rw [← List.reverse_reverse l, ← List.takeWhile_append_dropWhile (p := isPySpace) (l := l.reverse)]
  rw [List.reverse_append]

theorem headOkB_dropWhile (l : List Char) : headOkB (l.dropWhile isPySpace) = true := by
  induction l with
  | nil => rfl
  | cons c cs ih =>
    rw [List.dropWhile_cons]
    split_ifs with h
    · exact ih
    · simpa [headOkB] using h

theorem wsCanon_dropWhile {l : List Char} (h : wsCanon l = true) :
    wsCanon (l.dropWhile isPySpace) = true := by
  induction l with
  | nil => exact h
  | cons c cs ih =>
    rw [List.dropWhile_cons]
    split_ifs with h1
    · exact ih (wsCanon_tail h)
    · exact h

theorem headOkB_append_left {x y : List Char} (h : headOkB (x ++ y) = true)
    (hx : x ≠ []) : headOkB x = true := by
  cases x with
  | nil => exact absurd rfl hx
  | cons c cs => simpa [headOkB] using h

theorem wsCanon_append_left {y : List Char} :
    ∀ x : List Char, wsCanon (x ++ y) = true → wsCanon x = true
  | [], _ => rfl
  | c :: cs, h => by
    rw [List.cons_append] at h
    have h2 := wsCanon_tail h
    have h1 := wsCanon_head h
    rw [wsCanon, Bool.and_eq_true]
    refine ⟨?_, wsCanon_append_left cs h2⟩
    rcases Bool.or_eq_true_iff.mp h1 with h1 | h1
    · simp [h1]
    · rw [Bool.and_eq_true] at h1
      rcases h1 with ⟨hc, hh⟩
      cases cs with
      | nil => simp [hc, headOkB]
      | cons d ds =>
        rw [List.cons_append] at hh
        simp only [headOkB] at hh
        simp [hc, headOkB, hh]

theorem wsCanon_pyRStrip {l : List Char} (h : wsCanon l = true) :
    wsCanon (pyRStrip l) = true :=
  wsCanon_append_left _ (by rw [← pyRStrip_append l]; exact h)

theorem headOkB_pyRStrip {l : List Char} (h : headOkB l = true) :
    headOkB (pyRStrip l) = true := by
  cases hr : pyRStrip l with
  | nil => rfl
  | cons c cs =>
    have := pyRStrip_append l
    rw [hr] at this
    rw [this, List.cons_append] at h
    simpa [headOkB] using h

theorem lastOkB_pyRStrip (l : List Char) : lastOkB (pyRStrip l) = true := by
  unfold lastOkB pyRStrip
  rw [List.reverse_reverse]
  exact headOkB_dropWhile _

/-- The invariants of a stripped collapse output. -/
theorem pyStrip_invariants (u : List Char) :
    wsCanon (pyStrip (collapseRuns isPySpace u)) = true ∧
    headOkB (pyStrip (collapseRuns isPySpace u)) = true ∧
    lastOkB (pyStrip (collapseRuns isPySpace u)) = true := by
  unfold pyStrip pyLStrip
  refine ⟨wsCanon_pyRStrip (wsCanon_dropWhile (wsCanon_collapseRunsGo false u)),
    headOkB_pyRStrip (headOkB_dropWhile _), lastOkB_pyRStrip _⟩

/-- A list with non-whitespace head is fixed by `pyLStrip`. -/
theorem pyLStrip_eq_self {l : List Char} (h : headOkB l = true) : pyLStrip l = l := by
  unfold pyLStrip
  cases l with
  | nil => rfl
  | cons c cs =>
    rw [List.dropWhile_cons, if_neg]
    simpa [headOkB] using h

/-- A list with non-whitespace last character is fixed by `pyRStrip`. -/
theorem pyRStrip_eq_self {l : List Char} (h : lastOkB l = true) : pyRStrip l = l := by
  unfold pyRStrip
  have hd : List.dropWhile isPySpace l.reverse = l.reverse := pyLStrip_eq_self h
  rw [hd, List.reverse_reverse]

/-- A canonically spaced, trimmed list is fixed by `pyStrip`. -/
theorem pyStrip_eq_self {l : List Char} (hh : headOkB l = true) (hl : lastOkB l = true) :
    pyStrip l = l := by
  unfold pyStrip
  rw [pyLStrip_eq_self hh, pyRStrip_eq_self hl]

/-- A canonically spaced list is fixed by the whitespace collapse. -/
theorem collapseRuns_eq_self {l : List Char} (h : wsCanon l = true) :
    collapseRuns isPySpace l = l :=
  collapseRunsGo_eq_self l h false (by simp)

theorem repl1_chars : ∀ c ∈ "ecommerce e commerce".data, toLowerChar c = c := by decide

theorem repl2_chars : ∀ c ∈ "end-to-end end to end".data, toLowerChar c = c := by decide

/-- Every character of a normalized string is fixed by lowercasing. -/
theorem normalizeL_lower_stable (l : List Char) :
    ∀ c ∈ normalizeL l, toLowerChar c = c := by
  intro c hc
  unfold normalizeL at hc
  rcases mem_collapseRunsGo _ _ (mem_pyStrip hc) with hc2 | rfl
  · rcases List.mem_map.mp hc2 with ⟨a, ha, rfl⟩
    have hstable : toLowerChar a = a := by
      rcases mem_replaceAll ha with ha1 | ha1
      · rcases mem_replaceAll ha1 with ha2 | ha2
        · rcases mem_dehyphen ha2 with ha3 | rfl
          · rcases List.mem_map.mp ha3 with ⟨b, _, rfl⟩
            exact toLowerChar_idem b
          · decide
        · exact repl1_chars a ha2
      · exact repl2_chars a ha1
    rw [punctFix]
    split_ifs
    · exact hstable
    · decide
  · decide

/-- Every character of a normalized string survives the punctuation pass. -/
theorem normalizeL_keepChar (l : List Char) :
    ∀ c ∈ normalizeL l, keepChar c = true := by
  intro c hc
  unfold normalizeL at hc
  rcases mem_collapseRunsGo _ _ (mem_pyStrip hc) with hc2 | rfl
  · rcases List.mem_map.mp hc2 with ⟨a, _, rfl⟩
    rw [punctFix]
    split_ifs with h
    · exact h
    · decide
  · decide

/-- A normalized string is canonically spaced and trimmed. -/
theorem normalizeL_ws (l : List Char) :
    wsCanon (normalizeL l) = true ∧ headOkB (normalizeL l) = true ∧
      lastOkB (normalizeL l) = true := by
  unfold normalizeL
  exact pyStrip_invariants _

/-- C2 counterexample: the normalizer is not idempotent. A second pass
grows `"e-commerce"` (the `"e commerce"` canonicalization fires again on
its own output) and re-dehyphenates `"a-b-c"` (the first substitution
consumed the shared middle character, leaving `"a b-c"`). -/
theorem normalize_not_idempotent :
    normalize (normalize "e-commerce") ≠ normalize "e-commerce" ∧
    normalize (normalize "a-b-c") ≠ normalize "a-b-c" := by
  constructor
  · decide
  · decide

/-- C2 (corrected): the normalizer is idempotent on exactly the outputs its
rewriting stages leave alone: if `normalize s` contains no dash character
and contains neither `"e commerce"` nor `"end to end"` as a substring,
then `normalize (normalize s) = normalize s`. (The counterexamples show
both restrictions are necessary.) -/
theorem normalize_idempotent_of_stable (s : String)
    (hdash : ∀ c ∈ (normalize s).data, isDashChar c = false)
    (h1 : strContains (normalize s) "e commerce" = false)
    (h2 : strContains (normalize s) "end to end" = false) :
    normalize (normalize s) = normalize s := by
  have key : ∀ t : List Char, (∀ c ∈ t, toLowerChar c = c) → (∀ c ∈ t, keepChar c = true) →
      wsCanon t = true → headOkB t = true → lastOkB t = true →
      (∀ c ∈ t, isDashChar c = false) → subOf "e commerce".data t = false →
      subOf "end to end".data t = false → normalizeL t = t := by
    intro t hlower hkeep hws hhead hlast hdash' h1' h2'
    unfold normalizeL
    rw [map_eq_self_of_mem hlower,
      dehyphen_eq_self hdash',
      replaceAll_eq_self h1',
      replaceAll_eq_self h2',
      map_eq_self_of_mem (fun c hc => by rw [punctFix, if_pos (hkeep c hc)]),
      collapseRuns_eq_self hws]
    exact pyStrip_eq_self hhead hlast
  obtain ⟨hws, hhead, hlast⟩ := normalizeL_ws s.data
  exact congrArg String.mk
    (key (normalizeL s.data) (normalizeL_lower_stable s.data) (normalizeL_keepChar s.data)
      hws hhead hlast hdash h1 h2)

/-- C2 witness: the corrected statement at a concrete string whose
normalization (`"hello c++ world"`) is dash-free and avoids the two
canonicalized substrings. -/
theorem normalize_idempotent_witness :
    (∀ c ∈ (normalize "Hello, C++  World!").data, isDashChar c = false) ∧
    strContains (normalize "Hello, C++  World!") "e commerce" = false ∧
    strContains (normalize "Hello, C++  World!") "end to end" = false ∧
    normalize (normalize "Hello, C++  World!") = normalize "Hello, C++  World!" :=
  ⟨by decide, by decide, by decide,
    normalize_idempotent_of_stable "Hello, C++  World!" (by decide) (by decide) (by decide)⟩

/-! ### The resume parser (backend/routes/parse.py)

The parser works on plain strings and lists; Python sets in the skills
pipeline are modelled as deduplicated lists (only membership and sorted
output are ever observed). The `rapidfuzz` skill-filling scorer is a
parameter, as in the similarity engine. -/

/-- The character class `[ \t\f\v]` of `_multispace_re` (newlines kept). -/
def isSpaceTab (c : Char) : Bool :=
  c = ' ' || c = '\t' || c = '\x0c' || c = '\x0b'

/-- Is the head a `\w` character? -/
def headIsWordChar : List Char → Bool
  | [] => false
  | c :: _ => isWordChar c

/-- Worker for `_dehyphen_linebreak_re.sub(r"\1 \2", s)` with the regex
`(\w)-\s*\n\s*(\w)`: a word character, a hyphen, a whitespace run
containing at least one newline, and a word character; the scan resumes
after the second captured character. -/
def dehyphenLBAux : Nat → List Char → List Char
  | 0, l => l
  | _ + 1, [] => []
  | f + 1, a :: rest =>
    match rest with
    | '-' :: rest2 =>
      if isWordChar a && (rest2.takeWhile isPySpace).contains '\n' &&
          headIsWordChar (rest2.dropWhile isPySpace) then
        match rest2.dropWhile isPySpace with
        | c :: rest4 => a :: ' ' :: c :: dehyphenLBAux f rest4
        | [] => a :: dehyphenLBAux f rest
      else a :: dehyphenLBAux f rest
    | _ => a :: dehyphenLBAux f rest

/-- Line-break de-hyphenation (`machine-\nlearning` → `machine learning`). -/
def dehyphen_linebreak (l : List Char) : List Char := dehyphenLBAux l.length l

/-- Worker for `splitOnChar`. -/
def splitOnCharGo (sep : Char) : List Char → List Char → List (List Char)
  | acc, [] => [acc.reverse]
  | acc, c :: cs =>
    if c = sep then acc.reverse :: splitOnCharGo sep [] cs
    else splitOnCharGo sep (c :: acc) cs

/-- Python `str.split(sep)` for a single-character separator (keeps empty
pieces). -/
def splitOnChar (sep : Char) (l : List Char) : List (List Char) :=
  splitOnCharGo sep [] l

/-- Python `str.splitlines()` for strings whose only line break is `"\n"`
(the parser normalizes `\r\n`/`\r` away first). -/
def splitLines (s : String) : List String :=
  if s.data = [] then []
  else
    let parts := splitOnChar '\n' s.data
    let parts2 := if s.data.getLast? = some '\n' then parts.dropLast else parts
    parts2.map String.mk

/-- `parse._normalize_for_parsing` on character lists: NFC (the identity on
this ASCII fragment), line-break de-hyphenation, EOL unification, per-line
space collapse and trim, then lowercase and trim. -/
def normalizeForParsingL (l : List Char) : List Char :=
  if l = [] then []
  else
    let s1 := dehyphen_linebreak l
    let s2 := replaceAll "\r".data "\n".data (replaceAll "\r\n".data "\n".data s1)
    let lines2 := (splitOnChar '\n' s2).map (fun ln => pyStrip (collapseRuns isSpaceTab ln))
    pyStrip ((List.intercalate "\n".data lines2).map toLowerChar)

/-- `parse._normalize_for_parsing`. -/
def normalize_for_parsing (s : String) : String := ⟨normalizeForParsingL s.data⟩

example : normalize_for_parsing "machine-\nlearning" = "machine learning" := by decide
example : normalize_for_parsing "  A  b\t c \n\n X " = "a b c\n\nx" := by decide

/-! #### Regex heuristics, hand-rolled with Python `re` semantics -/

/-- The alternatives of `SEC_HEAD_RE`, in source order. -/
def SEC_HEAD_KEYWORDS : List String :=
  ["education", "work experience", "professional experience", "experience",
   "employment", "career history", "academics", "academic background",
   "qualifications", "projects"]

/-- The `\s*:?\s*$` tail of `SEC_HEAD_RE`. -/
def colonWsEnd (l : List Char) : Bool :=
  match l with
  | [] => true
  | ':' :: r => (r.dropWhile isPySpace).isEmpty
  | _ => false

/-- `SEC_HEAD_RE.match(ln)`: an optionally indented heading keyword with an
optional trailing colon (case-insensitive, anchored on both sides). -/
def sec_head_match (ln : String) : Bool :=
  let l1 := (ln.data.map toLowerChar).dropWhile isPySpace
  SEC_HEAD_KEYWORDS.any (fun kw =>
    startsL kw.data l1 &&
      colonWsEnd ((l1.drop kw.data.length).dropWhile isPySpace))

example : sec_head_match "  Work Experience: " = true := by decide
example : sec_head_match "experienced" = false := by decide

/-- The month alternatives of `MONTH_RE`, in source order. -/
def monthLits : List (List Char) :=
  ["jan", "feb", "mar", "apr", "may", "jun", "jul", "aug", "sep", "sept",
   "oct", "nov", "dec", "january", "february", "march", "april", "june",
   "july", "august", "september", "october", "november", "december"].map String.data

/-- `(19|20)\d{2}`. -/
def matchYear : List Char → Option (List Char)
  | '1' :: '9' :: c :: d :: rest => if c.isDigit && d.isDigit then some rest else none
  | '2' :: '0' :: c :: d :: rest => if c.isDigit && d.isDigit then some rest else none
  | _ => none

/-- `\s+` (maximal; every caller's next token starts with a non-space). -/
def wsPlus (l : List Char) : Option (List Char) :=
  match l with
  | c :: _ => if isPySpace c then some (l.dropWhile isPySpace) else none
  | [] => none

/-- `(?:MONTH\s+)?(19|20)\d{2}`: month alternatives tried in source order
(with full backtracking into the rest of this sub-pattern), then the bare
year. -/
def matchMonthYear (l : List Char) : Option (List Char) :=
  match monthLits.findSome? (fun m =>
      if startsL m l then
        match wsPlus (l.drop m.length) with
        | some r => matchYear r
        | none => none
      else none) with
  | some r => some r
  | none => matchYear l

/-- The `(?:present|(?:MONTH\s+)?(19|20)\d{2})\b` tail of `DATE_RANGE_RE`. -/
def matchRangeTail (l : List Char) : Option (List Char) :=
  match (if startsL "present".data l then
      let r := l.drop 7
      if headIsWordChar r then none else some r
    else none) with
  | some r => some r
  | none =>
    match matchMonthYear l with
    | some r => if headIsWordChar r then none else some r
    | none => none

/-- `DATE_RANGE_RE` matched at the start of `l` (which follows a `\b`);
returns the match length. -/
def dateRangeMatchLen (l : List Char) : Option Nat :=
  match matchMonthYear l with
  | none => none
  | some r1 =>
    match r1.dropWhile isPySpace with
    | d :: r3 =>
      if isDashChar d then
        match matchRangeTail (r3.dropWhile isPySpace) with
        | some r5 => some (l.length - r5.length)
        | none => none
      else none
    | [] => none

/-- Scanner for `DATE_RANGE_RE.search`: leftmost match, with the leading
word-boundary tracked via the previous character. -/
def dateRangeSearchGo : Option Char → Nat → List Char → Option (Nat × Nat)
  | _, _, [] => none
  | prev, i, c :: cs =>
    let boundaryOk := match prev with | none => true | some p => !isWordChar p
    match (if boundaryOk then dateRangeMatchLen (c :: cs) else none) with
    | some len => some (i, len)
    | none => dateRangeSearchGo (some c) (i + 1) cs

/-- `DATE_RANGE_RE.search(l)` (case-insensitive): start index and length. -/
def dateRangeSearch (l : List Char) : Option (Nat × Nat) :=
  dateRangeSearchGo none 0 (l.map toLowerChar)

example : dateRangeSearch "beedata technology — hyderabad, india jan 2020 – dec 2022".data =
    some (38, 19) := by decide
example : dateRangeSearch "software engineer".data = none := by decide
example : dateRangeSearch "feb 2025 – present".data = some (0, 18) := by decide

/-- `UPPER_HEADING_RE = ^[A-Z][A-Z\s&/.\-]+$`. -/
def upper_heading_match : List Char → Bool
  | [] => false
  | c :: rest =>
    decide ('A' ≤ c) && decide (c ≤ 'Z') && !rest.isEmpty &&
      rest.all (fun d =>
        (decide ('A' ≤ d) && decide (d ≤ 'Z')) || isPySpace d || d = '&' ||
          d = '/' || d = '.' || d = '-')

/-- `parse._is_company_header`. -/
def is_company_header (line : String) : Bool :=
  let l := pyStrip line.data
  ((l.contains '—' || l.contains '–') && (dateRangeSearch l).isSome) ||
    upper_heading_match l

/-- Python `str.strip(chars)` for an explicit character set. -/
def stripChars (chs : List Char) (l : List Char) : List Char :=
  ((l.dropWhile (chs.contains ·)).reverse.dropWhile (chs.contains ·)).reverse

/-- `parse._clean_line`: collapse whitespace, strip spaces/bullets/dashes. -/
def clean_line (s : String) : String :=
  ⟨stripChars [' ', '·', '-', '–', '—'] (collapseRuns isPySpace s.data)⟩

/-- Split at the first character of `[–—\-]` (`re.split(..., maxsplit=1)`). -/
def splitFirstDash (l : List Char) : List Char × Option (List Char) :=
  match l.findIdx? (fun c => isDashChar c) with
  | some j => (l.take j, some (l.drop (j + 1)))
  | none => (l, none)

/-- Is the character an em or en dash (`[–—]`, hyphen excluded)? -/
def isEmEnDash (c : Char) : Bool := c = '–' || c = '—'

/-- Split at the first match of `\s*[–—]\s*` (`re.split(..., maxsplit=1)`):
the first em/en dash, with the adjacent whitespace runs absorbed. -/
def splitCompanyLoc (l : List Char) : List Char × Option (List Char) :=
  match l.findIdx? isEmEnDash with
  | some j =>
    (((l.take j).reverse.dropWhile isPySpace).reverse,
      some ((l.drop (j + 1)).dropWhile isPySpace))
  | none => (l, none)

/-- Python `s or None` on a stripped character list. -/
def optStr (l : List Char) : Option String := if l = [] then none else some ⟨l⟩

/-- The result dictionary of `parse._split_company_header`. -/
structure HeaderParts where
  company : Option String
  location : Option String
  start : Option String
  end_ : Option String
deriving DecidableEq, Repr

/-- `parse._split_company_header`: cut out the date range, then split
`company — location`. -/
def split_company_header (line : String) : HeaderParts :=
  let s0 := stripChars [' ', '-', '–', '—'] line.data
  let dated :
      Option String × Option String × List Char :=
    match dateRangeSearch s0 with
    | some (i, len) =>
      let rng := (s0.drop i).take len
      let parts := splitFirstDash rng
      let startv := some (String.mk (pyStrip parts.1))
      let endv := match parts.2 with
        | some p1 => some (String.mk (pyStrip p1))
        | none => none
      (startv, endv,
        pyStrip (((s0.take i).reverse.dropWhile (fun c => c = ',' || c = ' ')).reverse))
    | none => (none, none, s0)
  let comploc := splitCompanyLoc dated.2.2
  { company := optStr (pyStrip comploc.1)
    location := match comploc.2 with
      | some x => some (String.mk (pyStrip x))
      | none => none
    start := dated.1
    end_ := dated.2.1 }

example :
    split_company_header "beedata technology — hyderabad, india jan 2020 – dec 2022" =
      { company := some "beedata technology", location := some "hyderabad, india",
        start := some "jan 2020", end_ := some "dec 2022" } := by decide

example :
    split_company_header "BeeData Technology — Hyderabad, India Jan 2020 – Dec 2022" =
      { company := some "BeeData Technology", location := some "Hyderabad, India",
        start := some "Jan 2020", end_ := some "Dec 2022" } := by decide

/-- `parse._section_blocks`: blocks that start at a heading matching one of
`keys` and end at the next heading of any kind. -/
def section_blocks (text : String) (keys : List String) : List String :=
  let lines := splitLines text
  let idx := List.range lines.length
  let all_head_idxs := idx.filter (fun i => sec_head_match (lines.getD i ""))
  let start_idxs := idx.filter (fun i =>
    sec_head_match (lines.getD i "") &&
      keys.any (fun k => subOf k.data ((lines.getD i "").data.map toLowerChar)))
  start_idxs.filterMap (fun start =>
    let stop := match all_head_idxs.find? (fun h => start < h) with
      | some h => h
      | none => lines.length
    let block := String.mk (pyStrip (List.intercalate "\n".data
      (((lines.drop start).take (stop - start)).map String.data)))
    if block = "" then none else some block)

example :
    section_blocks "summary\neducation\nbsc math\nuni x\nexperience\nacme — nyc jan 2020 – dec 2021\ndev" ["experience"] =
      ["experience\nacme — nyc jan 2020 – dec 2021\ndev"] := by decide

/-! #### Experience entries -/

/-- The bullet glyphs of `BULLET_RE` (`[•‣◦⁃\-•●]`). -/
def bulletChars : List Char := ['•', '‣', '◦', '⁃', '-', '•', '●']

/-- `BULLET_RE.match(line)`: a bullet glyph followed by whitespace. -/
def bullet_match : List Char → Bool
  | c :: d :: _ => bulletChars.contains c && isPySpace d
  | _ => false

/-- `BULLET_RE.sub("", line)`: remove the leading glyph and its whitespace
run when the line matches. -/
def bullet_strip (l : List Char) : List Char :=
  if bullet_match l then (l.drop 1).dropWhile isPySpace else l

/-- One parsed role of the Experience section. -/
structure ExpEntry where
  company : Option String
  location : Option String
  start : Option String
  end_ : Option String
  title : Option String
  bullets : List String
deriving DecidableEq, Repr

/-- Python truthiness of an optional string (`None` and `""` are falsy). -/
def pyTruthyStr : Option String → Bool
  | none => false
  | some s => s ≠ ""

/-- The loop body of `parse._parse_experience_block`: company headers flush
the current role, bullets accumulate, a line right after a header becomes
the title, other lines continue the last bullet/title or pend as a
title announced before its header. -/
def expLoop : List String → List ExpEntry → Option ExpEntry → Bool → Option String →
    List ExpEntry
  | [], entries, cur, _, _ =>
    match cur with
    | some c => entries ++ [c]
    | none => entries
  | raw :: rest, entries, cur, expecting_title, pending_title =>
    let line : String := ⟨pyStrip raw.data⟩
    if is_company_header line then
      let entries2 := match cur with | some c => entries ++ [c] | none => entries
      let header := split_company_header line
      let base : ExpEntry :=
        { company := header.company, location := header.location,
          start := header.start, end_ := header.end_, title := none, bullets := [] }
      if pyTruthyStr pending_title then
        expLoop rest entries2
          (some { base with title := some (clean_line (pending_title.getD "")) }) false none
      else
        expLoop rest entries2 (some base) true pending_title
    else if bullet_match line.data then
      match cur with
      | none => expLoop rest entries none expecting_title pending_title
      | some c =>
        expLoop rest entries
          (some { c with bullets := c.bullets ++ [clean_line ⟨bullet_strip line.data⟩] })
          expecting_title pending_title
    else if expecting_title && cur.isSome then
      match cur with
      | some c =>
        expLoop rest entries (some { c with title := some (clean_line line) }) false
          pending_title
      | none => expLoop rest entries cur false pending_title
    else
      let continues :=
        match cur with
        | some c => !c.bullets.isEmpty || pyTruthyStr c.title
        | none => false
      if continues then
        match cur with
        | some c =>
          if !c.bullets.isEmpty then
            let lastB : String := (c.bullets.getLast?).getD ""
            let merged := clean_line ⟨lastB.data ++ ' ' :: line.data⟩
            expLoop rest entries (some { c with bullets := c.bullets.dropLast ++ [merged] })
              expecting_title pending_title
          else
            let oldT : String := c.title.getD ""
            let merged := clean_line ⟨oldT.data ++ ' ' :: line.data⟩
            expLoop rest entries (some { c with title := some merged })
              expecting_title pending_title
        | none => expLoop rest entries cur expecting_title pending_title
      else
        let next_is_header :=
          match rest with
          | nxt :: _ => is_company_header ⟨pyStrip nxt.data⟩
          | [] => false
        let looks_like_title :=
          decide ((pySplit line).length ≤ 8) && line.data.all (fun c => !c.isDigit)
        let no_terminal :=
          match line.data.getLast? with
          | some c => !(['.', '!', '?', ':', ';'].contains c)
          | none => true
        if next_is_header && looks_like_title && no_terminal then
          expLoop rest entries cur expecting_title (some line)
        else
          expLoop rest entries cur expecting_title pending_title

/-- `parse._parse_experience_block`. -/
def parse_experience_block (block : String) : List ExpEntry :=
  let lines := (splitLines block).filter (fun ln => !(pyStrip ln.data).isEmpty)
  match lines with
  | [] => []
  | _ :: tail => expLoop tail [] none false none

/-! #### Education entries -/

/-- One parsed entry of the Education section. -/
structure EduEntry where
  degree : String
  school : Option String
  location : Option String
  start : Option String
  end_ : Option String
  year : Option String
deriving DecidableEq, Repr

/-- The alternatives of `DEGREE_HINT_RE` in source order, with each
`X\.?Y` expanded greedily (dotted form first). -/
def degreeAlts : List (List Char) :=
  ["b.sc", "bsc", "b.s", "bs", "b.e", "be", "btech", "b.tech", "btech",
   "m.sc", "msc", "m.s", "ms", "mtech", "m.tech", "mtech", "mba",
   "ph.d", "phd", "bachelor", "master", "doctorate", "ms", "bs", "mca",
   "bca"].map String.data

/-- Scanner for `DEGREE_HINT_RE.search` (case-insensitive, `\b` on both
sides); returns `group(0)` of the leftmost match. -/
def degreeSearchGo : Option Char → List Char → Option String
  | _, [] => none
  | prev, c :: cs =>
    let boundaryOk := match prev with | none => true | some p => !isWordChar p
    match (if boundaryOk then
        degreeAlts.findSome? (fun alt =>
          if startsL alt (c :: cs) && !headIsWordChar ((c :: cs).drop alt.length) then
            some alt
          else none)
      else none) with
    | some alt => some ⟨alt⟩
    | none => degreeSearchGo (some c) cs

/-- `DEGREE_HINT_RE.search` on the lowered text (the parser's text is
already lowercase, so returning the lowered match is exact). -/
def degree_hint_search (l : List Char) : Option String :=
  degreeSearchGo none (l.map toLowerChar)

example : degree_hint_search "bsc computer science".data = some "bsc" := by decide
example : degree_hint_search "m.tech in ai".data = some "m.tech" := by decide
example : degree_hint_search "bachelors of science".data = none := by decide

/-- `parse._DEGREE_MAP`. -/
def DEGREE_MAP : List (String × String) :=
  [("bsc", "bachelor"), ("b.s", "bachelor"), ("bs", "bachelor"), ("be", "bachelor"),
   ("btech", "bachelor"), ("b.tech", "bachelor"),
   ("msc", "master"), ("m.s", "master"), ("ms", "master"), ("mtech", "master"),
   ("m.tech", "master"), ("mca", "master"), ("mba", "master"),
   ("phd", "doctorate"), ("ph.d", "doctorate"),
   ("bca", "bachelor")]

/-- `parse._normalize_degree_label`: lowercase, drop dots, strip, look up. -/
def normalize_degree_label (s : String) : String :=
  let key : String := ⟨pyStrip ((s.data.map toLowerChar).filter (fun c => c ≠ '.'))⟩
  match DEGREE_MAP.find? (fun kv => kv.1 = key) with
  | some kv => kv.2
  | none => ⟨(pyStrip s.data).map toLowerChar⟩

/-- `re.search(r"(19|20)\d{2}", l)`: the leftmost plain year. -/
def yearSearch : List Char → Option String
  | [] => none
  | c :: cs =>
    match matchYear (c :: cs) with
    | some _ => some ⟨(c :: cs).take 4⟩
    | none => yearSearch cs

/-- The loop of `parse._parse_education_block`, with enough fuel for the
whole line list: pair a degree-hint line with the following
school/location/dates line, or a school line carrying a year with a
following degree-hint line. -/
def eduLoopAux : Nat → List String → List EduEntry
  | 0, _ => []
  | _ + 1, [] => []
  | f + 1, line0 :: rest =>
    let line : String := ⟨pyStrip line0.data⟩
    match degree_hint_search line.data with
    | some dm =>
      let deg := normalize_degree_label dm
      match rest with
      | nxt0 :: rest2 =>
        let nxt : String := ⟨pyStrip nxt0.data⟩
        let hdr := split_company_header nxt
        let year :=
          if !(pyTruthyStr hdr.start || pyTruthyStr hdr.end_) then yearSearch nxt.data
          else none
        { degree := deg, school := hdr.company, location := hdr.location,
          start := hdr.start, end_ := hdr.end_, year := year } :: eduLoopAux f rest2
      | [] =>
        [{ degree := deg, school := none, location := none,
           start := none, end_ := none, year := none }]
    | none =>
      let hdr := split_company_header line
      let has_year :=
        pyTruthyStr hdr.start || pyTruthyStr hdr.end_ || (yearSearch line.data).isSome
      match rest with
      | nxt0 :: rest2 =>
        if pyTruthyStr hdr.company && has_year then
          match degree_hint_search (pyStrip nxt0.data) with
          | some dm2 =>
            { degree := normalize_degree_label dm2, school := hdr.company,
              location := hdr.location, start := hdr.start, end_ := hdr.end_,
              year := none } :: eduLoopAux f rest2
          | none => eduLoopAux f (nxt0 :: rest2)
        else eduLoopAux f (nxt0 :: rest2)
      | [] => []

/-- `parse._parse_education_block`. -/
def parse_education_block (block : String) : List EduEntry :=
  let lines := (splitLines block).filter (fun ln => !(pyStrip ln.data).isEmpty)
  match lines with
  | [] => []
  | _ :: tail => eduLoopAux tail.length tail

/-! #### Contact fields -/

/-- `parse._first_nonempty_lines`. -/
def first_nonempty_lines (text : String) (n : Nat) : List String :=
  (((splitLines text).map (fun ln => (⟨pyStrip ln.data⟩ : String))).filter
    (fun ln => ln ≠ "")).take n

/-- The character class of `NAME_LINE_RE = ^[a-z ,.'\-]+$` (case-insensitive). -/
def nameLineChar (c : Char) : Bool :=
  c.isAlpha || c = ' ' || c = ',' || c = '.' || c = '\'' || c = '-'

/-- `NAME_LINE_RE.match(ln)` (anchored on both sides). -/
def name_line_match (l : List Char) : Bool := !l.isEmpty && l.all nameLineChar

/-- ASCII fragment of Python `str.title`. -/
def pyTitleGo : Bool → List Char → List Char
  | _, [] => []
  | prevAlpha, c :: cs =>
    (if c.isAlpha then (if prevAlpha then toLowerChar c else toUpperChar c) else c) ::
      pyTitleGo c.isAlpha cs

/-- Python `str.title`. -/
def pyTitle (s : String) : String := ⟨pyTitleGo false s.data⟩

/-- The lowercase particles kept uncapitalized by `_guess_name`. -/
def smallParticles : List String := ["of", "and", "the", "da", "de", "van", "von"]

/-- `parse._guess_name`: the first of the leading lines that has 2–6 words,
no digits, no `@`, and only name-like characters, title-cased. -/
def guess_name (text : String) : Option String :=
  (first_nonempty_lines text 8).findSome? (fun ln =>
    if ln.data.contains '@' || ln.data.any (fun c => c.isDigit) then none
    else
      let ws := pySplit ln
      if decide (2 ≤ ws.length) && decide (ws.length ≤ 6) && name_line_match ln.data then
        some (joinWords (ws.map (fun w =>
          let lw : String := ⟨w.data.map toLowerChar⟩
          if smallParticles.contains lw then lw else pyTitle w)))
      else none)

example : guess_name "john van der berg\nx@y.com" = some "John van Der Berg" := by decide
example : guess_name "experience\nstuff" = none := by decide

/-- The local-part class `[A-Z0-9._%+-]` of `EMAIL_RE` (case-insensitive). -/
def emailLocalChar (c : Char) : Bool :=
  c.isAlphanum || c = '.' || c = '_' || c = '%' || c = '+' || c = '-'

/-- The domain class `[A-Z0-9.-]` of `EMAIL_RE` (case-insensitive). -/
def emailDomainChar (c : Char) : Bool := c.isAlphanum || c = '.' || c = '-'

/-- The `\.[A-Z]{2,}\b` backtracking over the greedy domain run: dots are
tried from the right; a TLD is a maximal letter run of length ≥ 2 followed
by a non-word character or the end. Returns the consumed length after `@`. -/
def emailDomainTry (r2 : List Char) : Option Nat :=
  let run2 := r2.takeWhile emailDomainChar
  (List.range run2.length).reverse.findSome? (fun k =>
    if decide (1 ≤ k) && run2.getD k ' ' = '.' then
      let alphaRun := (r2.drop (k + 1)).takeWhile (fun c => c.isAlpha)
      if decide (2 ≤ alphaRun.length) &&
          (match r2.drop (k + 1 + alphaRun.length) with
           | [] => true
           | d :: _ => !isWordChar d) then
        some (k + 1 + alphaRun.length)
      else none
    else none)

/-- Scanner for `EMAIL_RE.search`: leftmost match of
`\b[A-Z0-9._%+-]+@[A-Z0-9.-]+\.[A-Z]{2,}\b`. -/
def emailSearchGo : Option Char → List Char → Option String
  | _, [] => none
  | prev, c :: cs =>
    let l := c :: cs
    let attempt : Option String :=
      let run1 := l.takeWhile emailLocalChar
      let prevW := match prev with | none => false | some p => isWordChar p
      match run1 with
      | [] => none
      | c1 :: _ =>
        if prevW = isWordChar c1 then none
        else
          match l.drop run1.length with
          | '@' :: r2 =>
            match emailDomainTry r2 with
            | some dlen => some ⟨l.take (run1.length + 1 + dlen)⟩
            | none => none
          | _ => none
    match attempt with
    | some s => some s
    | none => emailSearchGo (some c) cs

/-- `EMAIL_RE.search`. -/
def emailSearch (l : List Char) : Option String := emailSearchGo none l

example : emailSearch "mail me at a.b+c@sub.example.co.uk, thanks".data =
    some "a.b+c@sub.example.co.uk" := by decide
example : emailSearch "no email here".data = none := by decide

/-- The `\s*(?:@| at )\s*` connector of `EMAIL_FALLBACK` on lowered text:
the greedy leading `\s*` backs off from its maximal run; at each offset
`@` is preferred over `" at "`. Returns the remainder after the trailing
`\s*`. -/
def atConnector (l : List Char) : Option (List Char) :=
  (List.range ((l.takeWhile isPySpace).length + 1)).reverse.findSome? (fun k =>
    let r := l.drop k
    if startsL "@".data r then some ((r.drop 1).dropWhile isPySpace)
    else if startsL " at ".data r then some ((r.drop 4).dropWhile isPySpace)
    else none)

/-- The `\s*(?:\.| dot )\s*` connector of `EMAIL_FALLBACK`. -/
def dotConnector (l : List Char) : Option (List Char) :=
  (List.range ((l.takeWhile isPySpace).length + 1)).reverse.findSome? (fun k =>
    let r := l.drop k
    if startsL ".".data r then some ((r.drop 1).dropWhile isPySpace)
    else if startsL " dot ".data r then some ((r.drop 5).dropWhile isPySpace)
    else none)

/-- `EMAIL_FALLBACK` matched at one position of the lowered text: local
part, connector, domain run with backtracking (longest first), dot
connector, TLD with trailing `\b`. Returns the three capture groups. -/
def emailFallbackAt (prev : Option Char) (l : List Char) :
    Option (String × String × String) :=
  let run1 := l.takeWhile emailLocalChar
  match run1 with
  | [] => none
  | c1 :: _ =>
    let prevW := match prev with | none => false | some p => isWordChar p
    if prevW = isWordChar c1 then none
    else
      match atConnector (l.drop run1.length) with
      | none => none
      | some l2 =>
        let run2 := l2.takeWhile emailDomainChar
        (List.range (run2.length + 1)).reverse.findSome? (fun j =>
          if j = 0 then none
          else
            match dotConnector (l2.drop j) with
            | none => none
            | some l3 =>
              let alphaRun := l3.takeWhile (fun c => c.isAlpha)
              if decide (2 ≤ alphaRun.length) &&
                  (match l3.drop alphaRun.length with
                   | [] => true
                   | d :: _ => !isWordChar d) then
                some (⟨run1⟩, ⟨run2.take j⟩, ⟨alphaRun⟩)
              else none)

/-- Scanner for `EMAIL_FALLBACK.search` on the lowered text. -/
def emailFallbackSearchGo : Option Char → List Char → Option (String × String × String)
  | _, [] => none
  | prev, c :: cs =>
    match emailFallbackAt prev (c :: cs) with
    | some g => some g
    | none => emailFallbackSearchGo (some c) cs

/-- `parse._extract_email`: the strict pattern first, then the obfuscation
fallback, lowercased. -/
def extract_email (text : String) : Option String :=
  match emailSearch text.data with
  | some m => some ⟨m.data.map toLowerChar⟩
  | none =>
    match emailFallbackSearchGo none (text.data.map toLowerChar) with
    | some (g1, g2, g3) => some ⟨g1.data ++ '@' :: (g2.data ++ '.' :: g3.data)⟩
    | none => none

example : extract_email "no email here" = none := by decide
example : extract_email "reach john at gmail dot com now" = some "john@gmail.com" := by
  decide

/-- The separator class `[\s\-\.]` of `PHONE_RE`. -/
def sepClass (c : Char) : Bool := isPySpace c || c = '-' || c = '.'

/-- Exactly `n` digits (`\d{n}`); returns the remainder. -/
def takeDigits (n : Nat) (l : List Char) : Option (List Char) :=
  if decide ((l.take n).length = n) && (l.take n).all (fun c => c.isDigit) then
    some (l.drop n)
  else none

/-- `[\s\-\.]?`: remainders in greedy preference order (with, without). -/
def optSep (l : List Char) : List (List Char) :=
  match l with
  | c :: rest => if sepClass c then [rest, l] else [l]
  | [] => [l]

/-- Remainders after the optional group `(?:\+?\d{1,3}[\s\-\.]?)?` of
`PHONE_RE`, in backtracking preference order (present variants greedily
first, absent last). -/
def g1Options (l : List Char) : List (List Char) :=
  let plusOpts : List (List Char) :=
    match l with
    | '+' :: rest => [rest, l]
    | _ => [l]
  (plusOpts.flatMap (fun l1 =>
    ([3, 2, 1].filterMap (fun n => takeDigits n l1)).flatMap optSep)) ++ [l]

/-- Remainders after the optional group `(?:\(?\d{3}\)?[\s\-\.]?)?`. -/
def g2Options (l : List Char) : List (List Char) :=
  let lparen : List (List Char) :=
    match l with
    | '(' :: rest => [rest, l]
    | _ => [l]
  (lparen.flatMap (fun l1 =>
    match takeDigits 3 l1 with
    | none => []
    | some l2 =>
      let rparen : List (List Char) :=
        match l2 with
        | ')' :: rest => [rest, l2]
        | _ => [l2]
      rparen.flatMap optSep)) ++ [l]

/-- `PHONE_RE` matched at the start of `l`: the first full parse in
backtracking order wins; returns the match length. -/
def phoneMatchAt (l : List Char) : Option Nat :=
  ((g1Options l).flatMap g2Options).findSome? (fun l2 =>
    match takeDigits 3 l2 with
    | none => none
    | some l3 =>
      (optSep l3).findSome? (fun l4 =>
        match takeDigits 4 l4 with
        | some l5 => some (l.length - l5.length)
        | none => none))

/-- `PHONE_RE.search`: the leftmost match. -/
def phoneSearch : List Char → Option (List Char)
  | [] => none
  | c :: cs =>
    match phoneMatchAt (c :: cs) with
    | some len => some ((c :: cs).take len)
    | none => phoneSearch cs

/-- `parse._extract_phone`: normalize the matched number to `+<digits>`. -/
def extract_phone (text : String) : Option String :=
  match phoneSearch text.data with
  | none => none
  | some m =>
    let num := m.filter (fun c => c.isDigit || c = '+')
    let digits := num.filter (fun c => c.isDigit)
    if startsL ['+'] num && decide (8 ≤ digits.length) && decide (digits.length ≤ 15) then
      some ⟨num⟩
    else if digits.length = 10 then some ⟨'+' :: '1' :: digits⟩
    else if decide (8 ≤ digits.length) && decide (digits.length ≤ 15) then
      some ⟨'+' :: digits⟩
    else none

example : extract_phone "call (415) 555-0123 today" = some "+14155550123" := by decide
example : extract_phone "jan 2020 – dec 2022" = none := by decide

/-! #### Skills -/

/-- `parse._tokenize`: whitespace tokens minus the raw stopword set
(`parse.py` imports the unnormalized constants). -/
def parse_tokenize (text_norm : String) : List String :=
  (pySplit text_norm).filter (fun t => t ≠ "" && !(RAW_STOP.contains t))

/-- Does `p` occur in `text` with `\b` on both sides
(`re.search(rf"\b{re.escape(p)}\b", text)`)? -/
def boundSubGo (p : List Char) : Option Char → List Char → Bool
  | _, [] => false
  | prev, c :: cs =>
    let prevW := match prev with | none => false | some x => isWordChar x
    let headW := headIsWordChar p
    let lastW := match p.getLast? with | some x => isWordChar x | none => false
    ((prevW != headW) && startsL p (c :: cs) &&
      (match (c :: cs).drop p.length with
       | [] => lastW
       | d :: _ => lastW != isWordChar d)) ||
    boundSubGo p (some c) cs

/-- `parse._match_multiword_skills`: multi-word catalog skills found in the
text with word-boundary safety. (The set it builds is modelled as the
sublist of hits, deduplicated by construction.) -/
def match_multiword_skills (text : String) : List String :=
  (RAW_SKILLS.filter (fun s => s.data.contains ' ')).filter
    (fun p => boundSubGo p.data none text.data)

example : match_multiword_skills "likes machine learning a lot" = ["machine learning"] := by
  decide
example : match_multiword_skills "machine learnings" = [] := by decide

/-- `parse._fuzzy_fill_skills`, with the `rapidfuzz` `extractOne`/`QRatio`
lookup as a parameter (`top_k = 80`, `thresh = 92`). -/
def fuzzy_fill_skills (extractOneQ : String → List String → Option (String × Nat))
    (tokens : List String) (base : List String) : List String :=
  let have0 := base.dedup
  let cand := RAW_SKILLS.filter (fun s => !(have0.contains s))
  let newOnes := (tokens.take 80).filterMap (fun t =>
    match extractOneQ t cand with
    | some (b, score) => if 92 ≤ score then some b else none
    | none => none)
  pySortedStrings (have0 ++ newOnes).dedup

/-- `parse._consolidate_skills`: drop single-word skills contained in a
matched multi-word phrase, sort. -/
def consolidate_skills (skills : List String) : List String :=
  let skills1 := (skills.map (fun s => (⟨pyStrip s.data⟩ : String))).filter (fun s => s ≠ "")
  let phrases := skills1.filter (fun s => s.data.contains ' ')
  let singles := skills1.filter (fun s => !s.data.contains ' ')
  let singles2 := singles.filter (fun s =>
    !(phrases.any (fun p => subOf (' ' :: (s.data ++ [' '])) (' ' :: (p.data ++ [' '])))))
  pySortedStrings (phrases ++ singles2).dedup

example : consolidate_skills ["machine learning", "machine", "python"] =
    ["machine learning", "python"] := by decide

/-! #### The parse route -/

/-- The structured result of `parse.parse_resume` (the route also echoes
`raw_text`). -/
structure ParseOut where
  name : Option String
  email : Option String
  phone : Option String
  skills : List String
  education : List EduEntry
  experience : List ExpEntry
  raw_text : String
deriving DecidableEq, Repr

/-- `parse.EDU_KEYS`. -/
def EDU_KEYS : List String :=
  ["education", "qualifications", "academics", "academic background", "coursework"]

/-- `parse.EXP_KEYS`. -/
def EXP_KEYS : List String :=
  ["experience", "work experience", "professional experience", "employment",
   "career history"]

/-- `parse.parse_resume` on the raw-text path (`resume_file = None`), with
the `rapidfuzz` skill lookup as a parameter. `Except.error` models the two
`HTTPException(400, …)` raises of the route. -/
def parse_resume (extractOneQ : String → List String → Option (String × Nat))
    (resume_text : Option String) (fuzzy_skills : Bool) : Except String ParseOut :=
  let textOk := match resume_text with
    | some s => !(pyStrip s.data).isEmpty
    | none => false
  if !textOk then Except.error "Provide resume_file or resume_text"
  else
    let text_norm := normalize_for_parsing (resume_text.getD "")
    if (pyStrip text_norm.data).isEmpty then Except.error "No usable text in resume"
    else
      let tokens := (parse_tokenize text_norm).dedup
      let phrase_skills := match_multiword_skills text_norm
      let skills_exact :=
        pySortedStrings ((phrase_skills ++ tokens.filter (fun t => RAW_SKILLS.contains t)).dedup)
      let skills0 :=
        if fuzzy_skills then fuzzy_fill_skills extractOneQ tokens skills_exact
        else skills_exact
      let edu_blocks := section_blocks text_norm EDU_KEYS
      let exp_blocks := section_blocks text_norm EXP_KEYS
      Except.ok
        { name := guess_name text_norm
          email := extract_email text_norm
          phone := extract_phone text_norm
          skills := consolidate_skills skills0
          education := match edu_blocks with | b :: _ => parse_education_block b | [] => []
          experience := match exp_blocks with | b :: _ => parse_experience_block b | [] => []
          raw_text := text_norm }

/-- A degenerate stand-in for the `rapidfuzz` skill lookup. -/
def constExtractOne : String → List String → Option (String × Nat) := fun _ _ => none

instance {ε α : Type} [DecidableEq ε] [DecidableEq α] : DecidableEq (Except ε α) := fun a b =>
  match a, b with
  | .ok x, .ok y =>
    if h : x = y then .isTrue (h ▸ rfl) else .isFalse (fun c => h (Except.ok.inj c))
  | .error x, .error y =>
    if h : x = y then .isTrue (h ▸ rfl) else .isFalse (fun c => h (Except.error.inj c))
  | .ok _, .error _ => .isFalse (fun c => Except.noConfusion c)
  | .error _, .ok _ => .isFalse (fun c => Except.noConfusion c)

/-! ### Claim C7: line-wrapped hyphenation of a catalog phrase -/

/-- `compare._normalize_text` (compare.py lines 33-48): the pre-normalization
the compare route applies to every resume (inside `extract_text`, line 143)
and to the JD text (line 254) before the engine runs. Its Python body is
character-for-character that of `parse._normalize_for_parsing` — NFC,
the `(\w)-\s*\n\s*(\w)` de-hyphenation across line breaks, EOL unification,
per-line space collapsing, lowercasing, stripping — so both share the same
worker here. -/
def normalize_text (s : String) : String := ⟨normalizeForParsingL s.data⟩

example : normalize_text "uses machine-\nlearning daily" = "uses machine learning daily" := by
  decide

/-- Membership of a sorted insertion. -/
theorem mem_insSorted (le : String → String → Bool) (x a : String) (l : List String) :
    a ∈ insSorted le x l ↔ a = x ∨ a ∈ l := by
  induction l with
  | nil => simp [insSorted]
  | cons b bs ih =>
    simp only [insSorted]
    by_cases h : le x b = true
    · rw [if_pos h]
      simp [List.mem_cons]
    · rw [if_neg h]
      simp only [List.mem_cons, ih]
      tauto

/-- Insertion sort preserves membership. -/
theorem mem_sortByB (le : String → String → Bool) (a : String) (l : List String) :
    a ∈ sortByB le l ↔ a ∈ l := by
  induction l with
  | nil => simp [sortByB]
  | cons b bs ih =>
    rw [show sortByB le (b :: bs) = insSorted le b (sortByB le bs) from rfl,
      mem_insSorted, ih, List.mem_cons]

/-- Length of a sorted insertion. -/
theorem insSorted_length (le : String → String → Bool) (x : String) (l : List String) :
    (insSorted le x l).length = l.length + 1 := by
  induction l with
  | nil => rfl
  | cons b bs ih =>
    simp only [insSorted]
    by_cases h : le x b = true
    · simp [h]
    · simp [h, ih]

/-- Insertion sort preserves length. -/
theorem sortByB_length (le : String → String → Bool) (l : List String) :
    (sortByB le l).length = l.length := by
  induction l with
  | nil => rfl
  | cons b bs ih =>
    rw [show sortByB le (b :: bs) = insSorted le b (sortByB le bs) from rfl,
      insSorted_length, ih, List.length_cons]

/-- Membership in a capped stable keyword list, when the cap is not
binding. -/
theorem mem_stable_keywords_list {items : Finset String} {a : String} {k : Int}
    (hk : 0 ≤ k) (hcard : items.card ≤ k.toNat) :
    a ∈ stable_keywords_list items (some k) ↔ a ∈ items := by
  simp only [stable_keywords_list]
  rw [if_pos hk,
    List.take_of_length_le (by rw [sortByB_length, Finset.length_sort]; exact hcard),
    mem_sortByB]
  exact Finset.mem_sort _

/-- The stable keyword list of a singleton set at the default cap. -/
theorem stable_keywords_list_singleton (a : String) :
    stable_keywords_list {a} (some (DEFAULT_TOP_N : Int)) = [a] := by
  simp only [stable_keywords_list]
  rw [if_pos (by decide : (0 : Int) ≤ (DEFAULT_TOP_N : Int)), Finset.sort_singleton]
  rfl

/-- The matched set of the final (`"word"`) branch. -/
theorem similarity_branch_word_matched
    (matched_words matched_skills matched_phrases
      jd_tokens jd_skills jd_phrases : Finset String) (sem_percent : Option ℚ) :
    (similarity_branch false false matched_words matched_skills matched_phrases
      jd_tokens jd_skills jd_phrases sem_percent).2.1 =
    matched_words ∪ matched_phrases := rfl

/-- The word-level fuzzy matcher only ever matches target elements. -/
theorem match_with_fuzz_fst_subset
    (bestFuzzy : String → List String → String × Nat × String)
    (source target : Finset String) :
    (match_with_fuzz bestFuzzy source target).1 ⊆ target := by
  unfold match_with_fuzz
  split_ifs
  · exact Finset.empty_subset _
  · exact Finset.empty_subset _
  · exact Finset.filter_subset _ _

/-- Past the empty-JD guard with the default keyword cap, the matched keyword
list is the stable listing of the branch's matched set. -/
theorem compute_similarity_core_matched_keywords
    (skillMode overallMode : Bool)
    (bestFuzzy : String → List String → String × Nat × String)
    (qRatioFn pRatioFn : String → String → Nat)
    (embedSim : String → String → Option ℚ)
    (r j : String) (dbg : Bool)
    (hguard : ¬ ((compute_sets r j).jd_tokens = ∅ ∧ (compute_sets r j).jd_phrases = ∅)) :
    (compute_similarity_core skillMode overallMode bestFuzzy qRatioFn pRatioFn embedSim
      r j none dbg).matched_keywords =
    stable_keywords_list (similarity_branch skillMode overallMode
      (match_with_fuzz bestFuzzy (compute_sets r j).resume_tokens (compute_sets r j).jd_tokens).1
      (match_with_fuzz bestFuzzy ((compute_sets r j).resume_tokens ∩ SKILLS_SET)
        ((compute_sets r j).jd_tokens ∩ SKILLS_SET)).1
      (((compute_sets r j).jd_phrases ∩ (compute_sets r j).resume_phrases) ∪
        (fuzzy_phrase_hits_windowed qRatioFn pRatioFn (compute_sets r j).norm_resume
          ((compute_sets r j).jd_phrases \
            ((compute_sets r j).jd_phrases ∩ (compute_sets r j).resume_phrases))).1)
      (compute_sets r j).jd_tokens
      ((compute_sets r j).jd_tokens ∩ SKILLS_SET)
      (compute_sets r j).jd_phrases
      (semantic_percent embedSim (compute_sets r j).norm_resume (compute_sets r j).norm_jd)).2.1
      (some (DEFAULT_TOP_N : Int)) := by
  simp only [compute_similarity_core]
  rw [if_neg hguard]

/-- Past the empty-JD guard with debugging on and the default cap, the debug
payload's matched-phrase list is the stable listing of the exact-plus-windowed
phrase hits. -/
theorem compute_similarity_core_debug_matched_phrases
    (skillMode overallMode : Bool)
    (bestFuzzy : String → List String → String × Nat × String)
    (qRatioFn pRatioFn : String → String → Nat)
    (embedSim : String → String → Option ℚ)
    (r j : String)
    (hguard : ¬ ((compute_sets r j).jd_tokens = ∅ ∧ (compute_sets r j).jd_phrases = ∅)) :
    Option.map SimDebug.matched_phrases
      (compute_similarity_core skillMode overallMode bestFuzzy qRatioFn pRatioFn embedSim
        r j none true).debug =
    some (stable_keywords_list
      (((compute_sets r j).jd_phrases ∩ (compute_sets r j).resume_phrases) ∪
        (fuzzy_phrase_hits_windowed qRatioFn pRatioFn (compute_sets r j).norm_resume
          ((compute_sets r j).jd_phrases \
            ((compute_sets r j).jd_phrases ∩ (compute_sets r j).resume_phrases))).1)
      (some (DEFAULT_TOP_N : Int))) := by
  simp only [compute_similarity_core]
  rw [if_neg hguard]
  rfl

/-- C7 (confirmed): on the scoring path, the line-wrapped hyphenation is
undone before the engine runs, and the phrase is reported as matched. The
compare route pre-normalizes every resume (`extract_text`) and the JD text
with `_normalize_text`, whose de-hyphenation regex spans the line break, so a
resume containing the wrapped `"machine-\nlearning"` reaches
`compute_similarity` with `"machine learning"` restored; the engine-side
normalizer preserves the phrase, the exact phrase extractor finds it as a
substring of the normalized resume, and for every external scorer and
embedding behavior the word-mode result lists `"machine learning"` among the
matched keywords, with the debug matched-phrase list exactly
`["machine learning"]`. -/
theorem phrase_linebreak_matched_end_to_end
    (bestFuzzy : String → List String → String × Nat × String)
    (qRatioFn pRatioFn : String → String → Nat)
    (embedSim : String → String → Option ℚ) :
    normalize_text "uses machine-\nlearning daily" = "uses machine learning daily" ∧
    strContains (normalize (normalize_text "uses machine-\nlearning daily"))
      "machine learning" = true ∧
    "machine learning" ∈
      extract_phrases (normalize (normalize_text "uses machine-\nlearning daily")) PHRASES ∧
    "machine learning" ∈
      (compute_similarity bestFuzzy qRatioFn pRatioFn embedSim
        (normalize_text "uses machine-\nlearning daily")
        (normalize_text "machine learning") "word" none true).matched_keywords ∧
    Option.map SimDebug.matched_phrases
      (compute_similarity bestFuzzy qRatioFn pRatioFn embedSim
        (normalize_text "uses machine-\nlearning daily")
        (normalize_text "machine learning") "word" none true).debug =
      some ["machine learning"] := by
  have hres : normalize_text "uses machine-\nlearning daily" = "uses machine learning daily" := by
    decide
  have hjd : normalize_text "machine learning" = "machine learning" := by decide
  have hb1 : (("word" : String) == "skill") = false := by decide
  have hb2 : (("word" : String) == "overall") = false := by decide
  have hguard :
      ¬ ((compute_sets "uses machine learning daily" "machine learning").jd_tokens = ∅ ∧
        (compute_sets "uses machine learning daily" "machine learning").jd_phrases = ∅) := by
    decide
  have h1 : (compute_sets "uses machine learning daily" "machine learning").jd_phrases ∩
      (compute_sets "uses machine learning daily" "machine learning").resume_phrases =
      {"machine learning"} := by decide
  have h2 : (compute_sets "uses machine learning daily" "machine learning").jd_phrases \
      ((compute_sets "uses machine learning daily" "machine learning").jd_phrases ∩
        (compute_sets "uses machine learning daily" "machine learning").resume_phrases) = ∅ := by
    decide
  rw [hres, hjd]
  refine ⟨rfl, by decide, by decide, ?_, ?_⟩
  · simp only [compute_similarity, hb1, hb2]
    rw [compute_similarity_core_matched_keywords false false bestFuzzy qRatioFn pRatioFn embedSim
      "uses machine learning daily" "machine learning" true hguard]
    rw [similarity_branch_word_matched, h2, fuzzy_phrase_hits_windowed_empty, h1]
    simp only [Finset.union_empty]
    refine (mem_stable_keywords_list (by decide) ?_).mpr
      (Finset.mem_union_right _ (Finset.mem_singleton_self _))
    refine le_trans (Finset.card_le_card (Finset.union_subset_union
      (match_with_fuzz_fst_subset bestFuzzy
        (compute_sets "uses machine learning daily" "machine learning").resume_tokens
        (compute_sets "uses machine learning daily" "machine learning").jd_tokens)
      (Finset.Subset.refl {"machine learning"}))) ?_
    decide
  · simp only [compute_similarity, hb1, hb2]
    rw [compute_similarity_core_debug_matched_phrases false false bestFuzzy qRatioFn pRatioFn
      embedSim "uses machine learning daily" "machine learning" hguard]
    rw [h2, fuzzy_phrase_hits_windowed_empty, h1]
    simp only [Finset.union_empty]
    rw [stable_keywords_list_singleton]

/-! ### Claim C8: the BeeData company-header scenario -/

/-- C8 counterexample: the parser reports the company of the BeeData entry as
`"beedata technology"`, not the claimed `"BeeData Technology"`:
`_normalize_for_parsing` lowercases the whole text before any section is
parsed, so every extracted field value is lowercase. -/
theorem parse_beedata_counterexample :
    (parse_resume constExtractOne
        (some "Experience\nBeeData Technology — Hyderabad, India Jan 2020 – Dec 2022\nSoftware Engineer")
        false).map (fun r => r.experience.map (fun e => e.company)) =
      Except.ok [some "beedata technology"] ∧
    (some "beedata technology" : Option String) ≠ some "BeeData Technology" := by
  decide

/-- C8 (corrected): the claimed structure is produced, but with every field
value lowercased by the parser normalizer. On the Experience section
`"BeeData Technology — Hyderabad, India Jan 2020 – Dec 2022"` followed by the
title line `"Software Engineer"`, the parser returns exactly one experience
entry with company `"beedata technology"`, location `"hyderabad, india"`,
start `"jan 2020"`, end `"dec 2022"` and the following line as title
`"software engineer"` (and, incidentally, guesses the title line as the
candidate name, title-cased). -/
theorem parse_beedata_lowercased :
    parse_resume constExtractOne
        (some "Experience\nBeeData Technology — Hyderabad, India Jan 2020 – Dec 2022\nSoftware Engineer")
        false =
      Except.ok
        { name := some "Software Engineer"
          email := none
          phone := none
          skills := []
          education := []
          experience := [{ company := some "beedata technology"
                           location := some "hyderabad, india"
                           start := some "jan 2020"
                           end_ := some "dec 2022"
                           title := some "software engineer"
                           bullets := [] }]
          raw_text := "experience\nbeedata technology — hyderabad, india jan 2020 – dec 2022\nsoftware engineer" } := by
  decide

/-! ### Claim C9: behavior on empty or malformed input -/

/-- C9 counterexample: the route does raise on empty input. With no file and
empty, missing, or whitespace-only resume text, `parse_resume` raises the
HTTP 400 `"Provide resume_file or resume_text"` instead of returning a result
with null fields; a malformed but non-empty text, by contrast, really does
come back with every field null or empty. -/
theorem parse_resume_empty_counterexample :
    parse_resume constExtractOne (some "") false =
      Except.error "Provide resume_file or resume_text" ∧
    parse_resume constExtractOne none true =
      Except.error "Provide resume_file or resume_text" ∧
    parse_resume constExtractOne (some " \t\n ") false =
      Except.error "Provide resume_file or resume_text" ∧
    parse_resume constExtractOne (some "@@ %% @@") false =
      Except.ok { name := none, email := none, phone := none, skills := [],
                  education := [], experience := [], raw_text := "@@ %% @@" } := by
  decide

/-- C9 (corrected): the parser never fails except through its two explicit
empty-input guards. For every skill-lookup behavior, every optional resume
text and every fuzzy-skills flag, `parse_resume` either returns a parsed
result or raises exactly one of the two HTTP 400 errors
`"Provide resume_file or resume_text"` and `"No usable text in resume"`;
no other failure is possible. -/
theorem parse_resume_errors_only_on_empty
    (eo : String → List String → Option (String × Nat))
    (rt : Option String) (fz : Bool) :
    (∃ r, parse_resume eo rt fz = Except.ok r) ∨
    parse_resume eo rt fz = Except.error "Provide resume_file or resume_text" ∨
    parse_resume eo rt fz = Except.error "No usable text in resume" := by
  simp only [parse_resume]
  split
  · right; left; rfl
  · split
    · right; right; rfl
    · left; exact ⟨_, rfl⟩

/-! ### Claim C10: only the first matching section block is parsed -/

/-- C10 (confirmed): the education and experience lists of a parsed resume
are derived only from the *first* section block whose heading matches the
education (resp. experience) keys. Whenever the section splitter returns
`be :: restE` for the education keys and `bx :: restX` for the experience
keys, a successful parse returns exactly `parse_education_block be` and
`parse_experience_block bx`: the tails `restE` and `restX`, though detected
and returned by the splitter, contribute no entries. -/
theorem parse_resume_first_matching_block_only
    (eo : String → List String → Option (String × Nat))
    (s : String) (fz : Bool) (r : ParseOut) (be bx : String) (restE restX : List String)
    (hok : parse_resume eo (some s) fz = Except.ok r)
    (hedu : section_blocks (normalize_for_parsing s) EDU_KEYS = be :: restE)
    (hexp : section_blocks (normalize_for_parsing s) EXP_KEYS = bx :: restX) :
    r.education = parse_education_block be ∧ r.experience = parse_experience_block bx := by
  simp only [parse_resume, Option.getD] at hok
  split at hok
  · exact Except.noConfusion hok
  · split at hok
    · exact Except.noConfusion hok
    · injection hok with h
      subst h
      constructor
      · dsimp only
        rw [hedu]
      · dsimp only
        rw [hexp]

/-- C10 witness resume text: two education-type sections (`education`, then
`qualifications`) around one experience section. -/
def c10Text : String :=
  "Education\nBSc\nAlpha College — Pune, India 2015\nExperience\nFoo Ltd — Pune, India Jan 2020 – Dec 2022\nEngineer\nQualifications\nMSc\nBeta College — Delhi, India 2018"

/-- The first education-type block of [[c10Text]] after parser normalization. -/
def c10Edu1 : String := "education\nbsc\nalpha college — pune, india 2015"

/-- The second education-type block of [[c10Text]]: parseable on its own,
but ignored by the route. -/
def c10Edu2 : String := "qualifications\nmsc\nbeta college — delhi, india 2018"

/-- The sole experience block of [[c10Text]]. -/
def c10Exp1 : String := "experience\nfoo ltd — pune, india jan 2020 – dec 2022\nengineer"

/-- The full parse result for [[c10Text]]. -/
def c10Out : ParseOut :=
  { name := none
    email := none
    phone := none
    skills := []
    education := [{ degree := "bachelor"
                    school := some "alpha college"
                    location := some "pune, india 2015"
                    start := none
                    end_ := none
                    year := some "2015" }]
    experience := [{ company := some "foo ltd"
                     location := some "pune, india"
                     start := some "jan 2020"
                     end_ := some "dec 2022"
                     title := some "engineer"
                     bullets := [] }]
    raw_text := "education\nbsc\nalpha college — pune, india 2015\nexperience\nfoo ltd — pune, india jan 2020 – dec 2022\nengineer\nqualifications\nmsc\nbeta college — delhi, india 2018" }

/-- C10 witness: on a resume with two education-type sections, the splitter
returns both blocks and the second parses to a non-empty entry list on its
own, yet the route's education output comes from the first block only. -/
theorem parse_resume_first_matching_block_only_witness :
    parse_resume constExtractOne (some c10Text) false = Except.ok c10Out ∧
    section_blocks (normalize_for_parsing c10Text) EDU_KEYS = [c10Edu1, c10Edu2] ∧
    section_blocks (normalize_for_parsing c10Text) EXP_KEYS = [c10Exp1] ∧
    parse_education_block c10Edu2 ≠ [] ∧
    c10Out.education = parse_education_block c10Edu1 ∧
    c10Out.experience = parse_experience_block c10Exp1 := by
  have hok : parse_resume constExtractOne (some c10Text) false = Except.ok c10Out := by decide
  have h := parse_resume_first_matching_block_only constExtractOne c10Text false c10Out
    c10Edu1 c10Exp1 [c10Edu2] [] hok (by decide) (by decide)
  exact ⟨hok, by decide, by decide, by decide, h.1, h.2⟩

end JF
